import Mathlib

/-!
# RAGE scene-lifecycle core and text utilities: a shallow embedding

This development embeds the scene-management core of the RAGE framework
(`ra::SceneManager`, declared in the repository header together with the
specification of its transition algorithm) and the character-position
routine of `ra::Text` (`src/RAGE/Core/Text.cpp`), and proves the
lifecycle, transition and safety properties stated about them.

The `SceneManager` member functions are present in the repository only as
declarations with documentation (the header `SceneManager.hpp`); their
bodies are modelled from the specification's transition algorithm and
public contract, as recorded in each definition's doc comment.
-/

namespace RAGE

/-- A lifecycle callback observed by a scene, tagged with the scene's
identity (`sid`).  `Scene::Init`, `Resume`, `Pause`, `Cleanup` and the
per-frame `Event`, `Update`, `Draw` hooks of the Scene contract. -/
inductive Callback where
  | cbInit (sid : Nat)
  | cbResume (sid : Nat)
  | cbPause (sid : Nat)
  | cbCleanup (sid : Nat)
  | cbEvent (sid : Nat)
  | cbUpdate (sid : Nat)
  | cbDraw (sid : Nat)
deriving DecidableEq, Repr

/-- A scene: identified by a unique name (string key), carrying its
initialization flag (`IsInitComplete` in the C++ Scene contract).
`sid` is an identity tag distinguishing distinct scene objects that may
reuse a name across lifetimes. -/
structure Scene where
  sid : Nat
  name : String
  initialized : Bool
deriving DecidableEq, Repr

/-- Error taxonomy of the manager (spec section 7). -/
inductive SMError where
  | duplicateName
  | unknownScene
  | invalidOperation
deriving DecidableEq, Repr

/-- The `ra::SceneManager` state: the active scene (`mActiveScene`,
`Scene* mActiveScene` — at most one, or none), the pending transition
target (`mNextScene`, empty when no transition is pending), and the
inactive pool (`mInactivesScenes`, a map from scene name to scene,
embedded as an association list with unique keys). -/
structure SceneManager where
  mActiveScene : Option Scene
  mNextScene : Option String
  mInactivesScenes : List (String × Scene)
deriving DecidableEq, Repr

/-- Lookup by name in the inactive pool (`std::map::find`). -/
def lookupScene (n : String) : List (String × Scene) → Option Scene
  | [] => none
  | e :: rest => if e.1 = n then some e.2 else lookupScene n rest

/-- Erase by name from the inactive pool (`std::map::erase`). -/
def eraseScene (n : String) : List (String × Scene) → List (String × Scene)
  | [] => []
  | e :: rest => if e.1 = n then eraseScene n rest else e :: eraseScene n rest

/-- The outcome of one manager operation: the new state, the lifecycle
callbacks issued to scenes (in order), and the error reported, if any. -/
structure StepResult where
  state : SceneManager
  calls : List Callback
  err : Option SMError
deriving DecidableEq, Repr

/-- Modelled from the spec: `SceneManager::AddScene` — "inserts `scene`
into the inactive pool keyed by its name.  Fails (caller-visible error /
rejected) if the name already exists... Does not initialize the scene.
No side effect on the active scene."  A name already in use — in the
pool or by the active scene — is rejected as `duplicateName`. -/
def AddScene (m : SceneManager) (sc : Scene) : StepResult :=
  if (lookupScene sc.name m.mInactivesScenes).isSome then
    ⟨m, [], some SMError.duplicateName⟩
  else
    match m.mActiveScene with
    | some a =>
      if a.name = sc.name then ⟨m, [], some SMError.duplicateName⟩
      else ⟨{ m with mInactivesScenes := m.mInactivesScenes ++ [(sc.name, sc)] },
            [], none⟩
    | none =>
      ⟨{ m with mInactivesScenes := m.mInactivesScenes ++ [(sc.name, sc)] },
       [], none⟩

/-- Modelled from the spec: `SceneManager::SetActiveScene` — "records
`name` as the pending transition target.  Does not change the active
scene synchronously."  A request whose name is neither in the inactive
pool nor the current active scene's name is invalid: the request
overwrites the pending slot (last request wins) and is aborted —
the slot is cleared and a configuration error is reported
(spec section 7, UnknownScene: "Recovered locally for `SetActiveScene`
(transition aborted)"). -/
def SetActiveScene (m : SceneManager) (n : String) : StepResult :=
  if (lookupScene n m.mInactivesScenes).isSome
      ∨ m.mActiveScene.map Scene.name = some n then
    ⟨{ m with mNextScene := some n }, [], none⟩
  else
    ⟨{ m with mNextScene := none }, [], some SMError.unknownScene⟩

/-- Modelled from the spec: `SceneManager::RemoveScene` — "if `name` is
the active scene, the operation is rejected (precondition violation)...
Otherwise, invokes the scene's cleanup callback and releases it,
removing it from the inactive pool"; a name found nowhere is reported
as `unknownScene` with no state change. -/
def RemoveScene (m : SceneManager) (n : String) : StepResult :=
  match m.mActiveScene with
  | some a =>
    if a.name = n then ⟨m, [], some SMError.invalidOperation⟩
    else
      match lookupScene n m.mInactivesScenes with
      | some sc =>
        ⟨{ m with mInactivesScenes := eraseScene n m.mInactivesScenes },
         [Callback.cbCleanup sc.sid], none⟩
      | none => ⟨m, [], some SMError.unknownScene⟩
  | none =>
    match lookupScene n m.mInactivesScenes with
    | some sc =>
      ⟨{ m with mInactivesScenes := eraseScene n m.mInactivesScenes },
       [Callback.cbCleanup sc.sid], none⟩
    | none => ⟨m, [], some SMError.unknownScene⟩

/-- Modelled from the spec: `SceneManager::RemoveAllInactiveScene` —
"cleans up and releases every inactive scene; active scene untouched." -/
def RemoveAllInactiveScene (m : SceneManager) : StepResult :=
  ⟨{ m with mInactivesScenes := [] },
   m.mInactivesScenes.map (fun e => Callback.cbCleanup e.2.sid), none⟩

/-- Modelled from the spec: `SceneManager::RemoveAllScene` — "cleans up
and releases every scene including the active one; called only during
manager teardown." -/
def RemoveAllScene (m : SceneManager) : StepResult :=
  ⟨{ m with mInactivesScenes := [], mActiveScene := none },
   m.mInactivesScenes.map (fun e => Callback.cbCleanup e.2.sid)
     ++ (match m.mActiveScene with
         | some a => [Callback.cbCleanup a.sid]
         | none => []),
   none⟩

/-- Steps 4–7 of the transition algorithm: look up the pending name in
the inactive pool; if absent abort (clearing the pending flag, no scene
active); otherwise move the target out of the pool, install it as
active, and `Init` it (marking it initialized) on first activation or
`Resume` it otherwise; finally clear the pending flag.  `pre` carries
the `Pause` callback issued by step 3, so the returned call list is in
issue order. -/
def FinishChange (m : SceneManager) (n : String) (pre : List Callback) :
    StepResult :=
  match lookupScene n m.mInactivesScenes with
  | none =>
    ⟨{ m with mNextScene := none }, pre, some SMError.unknownScene⟩
  | some sc =>
    if sc.initialized then
      ⟨{ m with mInactivesScenes := eraseScene n m.mInactivesScenes,
                mActiveScene := some sc,
                mNextScene := none },
       pre ++ [Callback.cbResume sc.sid], none⟩
    else
      ⟨{ m with mInactivesScenes := eraseScene n m.mInactivesScenes,
                mActiveScene := some { sc with initialized := true },
                mNextScene := none },
       pre ++ [Callback.cbInit sc.sid], none⟩

/-- Modelled from the spec: `SceneManager::ChangeScene`, the transition
boundary applied once per frame.  Steps: (1) no pending name — return;
(2) pending name equals the active scene's name — clear the flag,
no-op; (3) pause the active scene, if any, and move it into the
inactive pool keyed by its name; (4–7) `FinishChange`. -/
def ChangeScene (m : SceneManager) : StepResult :=
  match m.mNextScene with
  | none => ⟨m, [], none⟩
  | some n =>
    match m.mActiveScene with
    | some a =>
      if a.name = n then ⟨{ m with mNextScene := none }, [], none⟩
      else
        FinishChange
          { m with mActiveScene := none,
                   mInactivesScenes := m.mInactivesScenes ++ [(a.name, a)] }
          n [Callback.cbPause a.sid]
    | none => FinishChange m n []

/-- Modelled from the spec: `SceneManager::EventScene` — forwards
`Event` to the active scene only; no-op when none is active. -/
def EventScene (m : SceneManager) : StepResult :=
  match m.mActiveScene with
  | some a => ⟨m, [Callback.cbEvent a.sid], none⟩
  | none => ⟨m, [], none⟩

/-- Modelled from the spec: `SceneManager::UpdateScene` — forwards
`Update` to the active scene only; no-op when none is active. -/
def UpdateScene (m : SceneManager) : StepResult :=
  match m.mActiveScene with
  | some a => ⟨m, [Callback.cbUpdate a.sid], none⟩
  | none => ⟨m, [], none⟩

/-- Modelled from the spec: `SceneManager::DrawScene` — forwards `Draw`
to the active scene only; no-op when none is active. -/
def DrawScene (m : SceneManager) : StepResult :=
  match m.mActiveScene with
  | some a => ⟨m, [Callback.cbDraw a.sid], none⟩
  | none => ⟨m, [], none⟩

/-- Modelled from the spec: `SceneManager::ResumeScene` — calls `Resume`
on the active scene; no-op when none is active. -/
def ResumeScene (m : SceneManager) : StepResult :=
  match m.mActiveScene with
  | some a => ⟨m, [Callback.cbResume a.sid], none⟩
  | none => ⟨m, [], none⟩

/-- Modelled from the spec: `SceneManager::PauseScene` — calls `Pause`
on the active scene; no-op when none is active. -/
def PauseScene (m : SceneManager) : StepResult :=
  match m.mActiveScene with
  | some a => ⟨m, [Callback.cbPause a.sid], none⟩
  | none => ⟨m, [], none⟩

/-- One public manager operation or boundary application. -/
inductive Op where
  | addScene (sc : Scene)
  | setActiveScene (n : String)
  | removeScene (n : String)
  | removeAllInactiveScene
  | removeAllScene
  | changeScene
  | eventScene
  | updateScene
  | drawScene
  | resumeScene
  | pauseScene
deriving DecidableEq, Repr

/-- Dispatch one operation on the manager. -/
def runOp (m : SceneManager) : Op → StepResult
  | Op.addScene sc => AddScene m sc
  | Op.setActiveScene n => SetActiveScene m n
  | Op.removeScene n => RemoveScene m n
  | Op.removeAllInactiveScene => RemoveAllInactiveScene m
  | Op.removeAllScene => RemoveAllScene m
  | Op.changeScene => ChangeScene m
  | Op.eventScene => EventScene m
  | Op.updateScene => UpdateScene m
  | Op.drawScene => DrawScene m
  | Op.resumeScene => ResumeScene m
  | Op.pauseScene => PauseScene m

/-- Run a sequence of operations, accumulating the callback trace. -/
def runOps (m : SceneManager) : List Op → SceneManager × List Callback
  | [] => (m, [])
  | op :: rest =>
    let r := runOp m op
    let rec' := runOps r.state rest
    (rec'.1, r.calls ++ rec'.2)

/-- The manager state at creation: no active scene, no pending
transition, empty inactive pool. -/
def initialSM : SceneManager := ⟨none, none, []⟩

/-! ## Well-formedness of a manager state -/

/-- A well-formed manager state: the inactive pool has pairwise distinct
keys, each entry is keyed by its scene's name, and the active scene's
name is absent from the pool (a scene is never simultaneously in
`mInactivesScenes` and referenced as `mActiveScene`). -/
def ManagerInv (m : SceneManager) : Prop :=
  (m.mInactivesScenes.map Prod.fst).Nodup
  ∧ (∀ e ∈ m.mInactivesScenes, e.2.name = e.1)
  ∧ (∀ a ∈ m.mActiveScene, lookupScene a.name m.mInactivesScenes = none)

instance (m : SceneManager) : Decidable (ManagerInv m) := by
  unfold ManagerInv
  infer_instance

/-- The identity tag carried by a callback. -/
def callbackSid : Callback → Nat
  | Callback.cbInit i => i
  | Callback.cbResume i => i
  | Callback.cbPause i => i
  | Callback.cbCleanup i => i
  | Callback.cbEvent i => i
  | Callback.cbUpdate i => i
  | Callback.cbDraw i => i

/-- The identity tags of all scenes held by the manager: the active
scene first, then the inactive pool in storage order. -/
def sidsOf (m : SceneManager) : List Nat :=
  (match m.mActiveScene with | some a => [a.sid] | none => [])
    ++ m.mInactivesScenes.map (fun e => e.2.sid)

/-- The scene is currently held by the manager, inactive or active. -/
def InManager (sc : Scene) (m : SceneManager) : Prop :=
  (∃ k, (k, sc) ∈ m.mInactivesScenes) ∨ m.mActiveScene = some sc

/-- In every prefix of the trace, a scene identity that has received no
`Init` has received no `Resume`: `Resume` is never called before
`Init`. -/
def ResumeAfterInit (tr : List Callback) (i : Nat) : Prop :=
  ∀ k, (tr.take k).count (Callback.cbInit i) = 0 →
    (tr.take k).count (Callback.cbResume i) = 0

/-- The lifecycle invariant tying a manager state to the callback trace
that produced it: the state is well formed with pairwise distinct scene
identities; every held scene has received exactly one `Init` if and
only if it is marked initialized, no `Cleanup`, and no `Resume` while
uninitialized; the active scene is initialized; and globally every
identity has at most one `Init`, at most one `Cleanup`, and no `Resume`
before its `Init`. -/
structure LifecycleInv (m : SceneManager) (tr : List Callback) : Prop where
  mgr : ManagerInv m
  sidsNodup : (sidsOf m).Nodup
  scenes : ∀ sc, InManager sc m →
    tr.count (Callback.cbInit sc.sid) = (if sc.initialized then 1 else 0)
    ∧ tr.count (Callback.cbCleanup sc.sid) = 0
    ∧ (sc.initialized = false → tr.count (Callback.cbResume sc.sid) = 0)
  activeInit : ∀ a ∈ m.mActiveScene, a.initialized = true
  global : ∀ i, tr.count (Callback.cbInit i) ≤ 1
    ∧ tr.count (Callback.cbCleanup i) ≤ 1
    ∧ ResumeAfterInit tr i

/-- The identity `i` is fresh for the manager state and the trace: no
held scene carries it and no `Init`, `Resume` or `Cleanup` for it has
been recorded. -/
def FreshSid (i : Nat) (m : SceneManager) (tr : List Callback) : Prop :=
  i ∉ sidsOf m
  ∧ tr.count (Callback.cbInit i) = 0
  ∧ tr.count (Callback.cbResume i) = 0
  ∧ tr.count (Callback.cbCleanup i) = 0

/-- The scenes handed to `AddScene` by an operation sequence. -/
def addedScenes : List Op → List Scene
  | [] => []
  | Op.addScene sc :: rest => sc :: addedScenes rest
  | _ :: rest => addedScenes rest

/-- A well-formed client program: every scene handed to `AddScene` is a
distinct object (pairwise distinct identities) and is handed over
freshly constructed, i.e. uninitialized. -/
def GoodProgram (ops : List Op) : Prop :=
  (addedScenes ops).Pairwise (fun s t => s.sid ≠ t.sid)
  ∧ ∀ sc ∈ addedScenes ops, sc.initialized = false

instance (ops : List Op) : Decidable (GoodProgram ops) := by
  unfold GoodProgram
  infer_instance

/-! ## Concrete states used to exercise the theorems -/

/-- A scene named "A", never initialized. -/
def sceneA : Scene := ⟨1, "A", false⟩

/-- A scene named "S", already initialized. -/
def sceneS : Scene := ⟨0, "S", true⟩

/-- A manager with "S" active and "A" inactive. -/
def exampleSM : SceneManager := ⟨some sceneS, none, [("A", sceneA)]⟩

/-- Add "A", request it, apply one boundary. -/
def exampleOps : List Op :=
  [Op.addScene sceneA, Op.setActiveScene "A", Op.changeScene]

/-! ## The Text character-position routine (`Text.cpp`) -/

/-- The face of `sf::Font` that `Text::findCharacterPos` consumes:
glyph advance (by code point, character size and boldness), line
spacing, and kerning between two code points at a character size.
Metric values are embedded as rationals. -/
structure Font where
  glyphAdvance : Nat → Nat → Bool → ℚ
  lineSpacing : Nat → ℚ
  kerning : Nat → Nat → Nat → ℚ

/-- The members of `ra::Text` that `findCharacterPos` reads: the string
(UTF-32 code points), the optional font pointer, the character size and
the style bit mask; `transformPoint` stands for the inherited
transformable's `getTransform().transformPoint`. -/
structure Text where
  m_string : List Nat
  m_font : Option Font
  m_characterSize : Nat
  m_style : Nat
  transformPoint : ℚ × ℚ → ℚ × ℚ

/-- The `Bold` style bit (`sf::Text::Bold = 1 << 0`). -/
def styleBold : Nat := 1

/-- One iteration of the position walk in `Text::findCharacterPos`:
apply the kerning offset for the previous character, then advance by
`hspace` for a space, `hspace * 4` for a tab, a newline resets x and
advances y by `vspace`, a vertical tab advances y by `vspace * 4`, and
any other character advances by its glyph's advance. -/
def charPosStep (font : Font) (size : Nat) (bold : Bool) (hspace vspace : ℚ)
    (st : (ℚ × ℚ) × Nat) (cur : Nat) : (ℚ × ℚ) × Nat :=
  let px := st.1.1 + font.kerning st.2 cur size
  let py := st.1.2
  if cur = 32 then ((px + hspace, py), cur)
  else if cur = 9 then ((px + hspace * 4, py), cur)
  else if cur = 10 then ((0, py + vspace), cur)
  else if cur = 11 then ((px, py + vspace * 4), cur)
  else ((px + font.glyphAdvance cur size bold, py), cur)

/-- `Text::findCharacterPos`: with no font, returns the zero vector;
otherwise clamps the index to the string size, walks the first `index`
characters accumulating the position, and transforms the result to
global coordinates. -/
def findCharacterPos (t : Text) (index : Nat) : ℚ × ℚ :=
  match t.m_font with
  | none => (0, 0)
  | some font =>
    let idx := min index t.m_string.length
    let bold := Nat.land t.m_style styleBold != 0
    let hspace := font.glyphAdvance 32 t.m_characterSize bold
    let vspace := font.lineSpacing t.m_characterSize
    let final :=
      (t.m_string.take idx).foldl
        (charPosStep font t.m_characterSize bold hspace vspace) ((0, 0), 0)
    t.transformPoint final.1

/-- A font whose metrics are the constants 1 (advance), 2 (spacing)
and 0 (kerning). -/
def exampleFont : Font := ⟨fun _ _ _ => 1, fun _ => 2, fun _ _ _ => 0⟩

/-- A two-character text with the example font and identity transform. -/
def exampleText : Text := ⟨[65, 66], some exampleFont, 30, 0, id⟩

/-- A text with no font set. -/
def noFontText : Text := ⟨[65], none, 30, 0, id⟩

/-! ## Lemmas on pool lookup and erasure -/

theorem lookupScene_mem {pool : List (String × Scene)} {n : String}
    {sc : Scene} (h : lookupScene n pool = some sc) : (n, sc) ∈ pool := by
  induction pool with
  | nil => simp [lookupScene] at h
  | cons e rest ih =>
    rw [lookupScene] at h
    split at h
    · next heq =>
      injection h with h2
      rw [← heq, ← h2]
      exact List.mem_cons_self _ _
    · exact List.mem_cons_of_mem _ (ih h)

theorem lookupScene_eq_none {pool : List (String × Scene)} {n : String} :
    lookupScene n pool = none ↔ n ∉ pool.map Prod.fst := by
  induction pool with
  | nil => simp [lookupScene]
  | cons e rest ih =>
    rw [lookupScene]
    by_cases hk : e.1 = n
    · simp [hk]
    · have hk' : n ≠ e.1 := fun hc => hk hc.symm
      simp [hk, hk', ih]

theorem lookupScene_append_some {l1 l2 : List (String × Scene)} {n : String}
    {sc : Scene} (h : lookupScene n l1 = some sc) :
    lookupScene n (l1 ++ l2) = some sc := by
  induction l1 with
  | nil => simp [lookupScene] at h
  | cons e rest ih =>
    rw [lookupScene] at h
    rw [List.cons_append, lookupScene]
    split at h
    · next heq => rw [if_pos heq]; exact h
    · next hne => rw [if_neg hne]; exact ih h

theorem lookupScene_append_none {l1 : List (String × Scene)} {n : String}
    (h : lookupScene n l1 = none) (l2 : List (String × Scene)) :
    lookupScene n (l1 ++ l2) = lookupScene n l2 := by
  induction l1 with
  | nil => simp
  | cons e rest ih =>
    rw [lookupScene] at h
    split at h
    · exact absurd h (by simp)
    · next hne =>
      rw [List.cons_append, lookupScene, if_neg hne]
      exact ih h

theorem eraseScene_of_lookup_none {pool : List (String × Scene)} {n : String}
    (h : lookupScene n pool = none) : eraseScene n pool = pool := by
  induction pool with
  | nil => rfl
  | cons e rest ih =>
    rw [lookupScene] at h
    split at h
    · exact absurd h (by simp)
    · next hne =>
      rw [eraseScene, if_neg hne, ih h]

theorem lookupScene_erase_self (n : String) (pool : List (String × Scene)) :
    lookupScene n (eraseScene n pool) = none := by
  induction pool with
  | nil => rfl
  | cons e rest ih =>
    rw [eraseScene]
    split
    · exact ih
    · next hne => rw [lookupScene, if_neg hne]; exact ih

theorem lookupScene_erase_ne {n k : String} (h : n ≠ k)
    (pool : List (String × Scene)) :
    lookupScene n (eraseScene k pool) = lookupScene n pool := by
  induction pool with
  | nil => rfl
  | cons e rest ih =>
    rw [eraseScene]
    split
    · next hek =>
      have hen : ¬ e.1 = n := fun hc => h (hc ▸ hek)
      rw [lookupScene, if_neg hen]
      exact ih
    · next hek =>
      rw [lookupScene, lookupScene]
      split
      · rfl
      · exact ih

theorem mem_eraseScene {pool : List (String × Scene)} {n : String}
    {e : String × Scene} (h : e ∈ eraseScene n pool) : e ∈ pool ∧ e.1 ≠ n := by
  induction pool with
  | nil => simp [eraseScene] at h
  | cons e' rest ih =>
    rw [eraseScene] at h
    split at h
    · exact ⟨List.mem_cons_of_mem _ (ih h).1, (ih h).2⟩
    · next hne =>
      rcases List.mem_cons.1 h with rfl | h'
      · exact ⟨List.mem_cons_self _ _, hne⟩
      · exact ⟨List.mem_cons_of_mem _ (ih h').1, (ih h').2⟩

theorem eraseScene_sublist (n : String) (pool : List (String × Scene)) :
    (eraseScene n pool).Sublist pool := by
  induction pool with
  | nil => exact List.Sublist.refl _
  | cons e rest ih =>
    rw [eraseScene]
    split
    · exact ih.cons e
    · exact ih.cons₂ e

theorem eraseScene_append (n : String) (l1 l2 : List (String × Scene)) :
    eraseScene n (l1 ++ l2) = eraseScene n l1 ++ eraseScene n l2 := by
  induction l1 with
  | nil => rfl
  | cons e rest ih =>
    rw [List.cons_append, eraseScene, eraseScene]
    split
    · exact ih
    · rw [List.cons_append, ih]

theorem perm_cons_eraseScene {pool : List (String × Scene)} {n : String}
    {sc : Scene} (hnd : (pool.map Prod.fst).Nodup)
    (h : lookupScene n pool = some sc) :
    pool.Perm ((n, sc) :: eraseScene n pool) := by
  induction pool with
  | nil => simp [lookupScene] at h
  | cons e rest ih =>
    rw [lookupScene] at h
    rw [List.map_cons, List.nodup_cons] at hnd
    rw [eraseScene]
    split at h
    · next heq =>
      injection h with h2
      have he : e = (n, sc) := by
        rw [← heq, ← h2]
      have hrest : lookupScene n rest = none :=
        lookupScene_eq_none.2 (heq ▸ hnd.1)
      rw [if_pos heq, eraseScene_of_lookup_none hrest, he]
    · next hne =>
      rw [if_neg hne]
      exact ((ih hnd.2 h).cons e).trans (List.Perm.swap _ _ _)

theorem nodup_map_inj {α β : Type} {f : α → β} {l : List α}
    (h : (l.map f).Nodup) :
    ∀ x ∈ l, ∀ y ∈ l, f x = f y → x = y := by
  induction l with
  | nil => intro x hx; simp at hx
  | cons a rest ih =>
    rw [List.map_cons, List.nodup_cons] at h
    intro x hx y hy hf
    rcases List.mem_cons.1 hx with rfl | hx' <;>
      rcases List.mem_cons.1 hy with rfl | hy'
    · rfl
    · exact absurd (hf ▸ List.mem_map_of_mem f hy') h.1
    · exact absurd (hf ▸ List.mem_map_of_mem f hx') h.1
    · exact ih h.2 x hx' y hy' hf

/-! ## Lemmas on callback counting -/

theorem resumeAfterInit_nil (i : Nat) : ResumeAfterInit [] i := by
  intro k _
  simp

theorem count_take_eq_zero {tr : List Callback} {cb : Callback}
    (h : tr.count cb = 0) (k : Nat) : (tr.take k).count cb = 0 :=
  Nat.le_zero.1 (h ▸ (List.take_sublist k tr).count_le cb)

theorem resumeAfterInit_append_no_resume {tr new : List Callback} {i : Nat}
    (h : ResumeAfterInit tr i)
    (h2 : new.count (Callback.cbResume i) = 0) :
    ResumeAfterInit (tr ++ new) i := by
  intro k hk
  rw [List.take_append_eq_append_take, List.count_append] at hk ⊢
  have h1 : (tr.take k).count (Callback.cbInit i) = 0 := by omega
  rw [h k h1, count_take_eq_zero h2]

theorem resumeAfterInit_append_init_pos {tr new : List Callback} {i : Nat}
    (h : ResumeAfterInit tr i)
    (h2 : 0 < tr.count (Callback.cbInit i)) :
    ResumeAfterInit (tr ++ new) i := by
  intro k hk
  by_cases hlen : k ≤ tr.length
  · rw [List.take_append_of_le_length hlen] at hk ⊢
    exact h k hk
  · exfalso
    rw [List.take_append_eq_append_take, List.count_append,
      List.take_of_length_le (by omega)] at hk
    omega

theorem lookupScene_erase_of_none {pool : List (String × Scene)}
    {n k : String} (h : lookupScene k pool = none) :
    lookupScene k (eraseScene n pool) = none := by
  by_cases hk : k = n
  · rw [hk]
    exact lookupScene_erase_self n pool
  · rw [lookupScene_erase_ne hk]
    exact h

theorem nodup_keys_append_single {pool : List (String × Scene)} {n : String}
    {s : Scene} (hnd : (pool.map Prod.fst).Nodup)
    (h : lookupScene n pool = none) :
    ((pool ++ [(n, s)]).map Prod.fst).Nodup := by
  rw [List.map_append]
  rw [List.nodup_append]
  refine ⟨hnd, List.nodup_singleton n, ?_⟩
  intro x hx hx1
  simp only [List.map_cons, List.map_nil, List.mem_singleton] at hx1
  rw [hx1] at hx
  exact lookupScene_eq_none.1 h hx

theorem nodup_keys_erase {pool : List (String × Scene)} (n : String)
    (hnd : (pool.map Prod.fst).Nodup) :
    ((eraseScene n pool).map Prod.fst).Nodup :=
  ((eraseScene_sublist n pool).map Prod.fst).nodup hnd

/-! ## Reduction equations for the operations -/

theorem AddScene_dup_pool {m : SceneManager} {sc s' : Scene}
    (h : lookupScene sc.name m.mInactivesScenes = some s') :
    AddScene m sc = ⟨m, [], some SMError.duplicateName⟩ := by
  simp [AddScene, h]

theorem AddScene_dup_active {m : SceneManager} {sc a : Scene}
    (hl : lookupScene sc.name m.mInactivesScenes = none)
    (ha : m.mActiveScene = some a) (he : a.name = sc.name) :
    AddScene m sc = ⟨m, [], some SMError.duplicateName⟩ := by
  simp [AddScene, hl, ha, he]

theorem AddScene_ok {m : SceneManager} {sc : Scene}
    (hl : lookupScene sc.name m.mInactivesScenes = none)
    (ha : ∀ a ∈ m.mActiveScene, a.name ≠ sc.name) :
    AddScene m sc = ⟨{ m with mInactivesScenes :=
      m.mInactivesScenes ++ [(sc.name, sc)] }, [], none⟩ := by
  cases hact : m.mActiveScene with
  | none => simp [AddScene, hl, hact]
  | some a => simp [AddScene, hl, hact, ha a (by rw [hact]; rfl)]

theorem SetActiveScene_valid {m : SceneManager} {n : String}
    (h : (lookupScene n m.mInactivesScenes).isSome = true
      ∨ m.mActiveScene.map Scene.name = some n) :
    SetActiveScene m n = ⟨{ m with mNextScene := some n }, [], none⟩ := by
  rw [SetActiveScene, if_pos h]

theorem SetActiveScene_invalid {m : SceneManager} {n : String}
    (h : ¬((lookupScene n m.mInactivesScenes).isSome = true
      ∨ m.mActiveScene.map Scene.name = some n)) :
    SetActiveScene m n
      = ⟨{ m with mNextScene := none }, [], some SMError.unknownScene⟩ := by
  rw [SetActiveScene, if_neg h]

theorem RemoveScene_isActive {m : SceneManager} {n : String} {a : Scene}
    (ha : m.mActiveScene = some a) (he : a.name = n) :
    RemoveScene m n = ⟨m, [], some SMError.invalidOperation⟩ := by
  simp [RemoveScene, ha, he]

theorem RemoveScene_found {m : SceneManager} {n : String} {sc : Scene}
    (ha : ∀ a ∈ m.mActiveScene, a.name ≠ n)
    (hl : lookupScene n m.mInactivesScenes = some sc) :
    RemoveScene m n
      = ⟨{ m with mInactivesScenes := eraseScene n m.mInactivesScenes },
         [Callback.cbCleanup sc.sid], none⟩ := by
  cases hact : m.mActiveScene with
  | none => simp [RemoveScene, hact, hl]
  | some a => simp [RemoveScene, hact, hl, ha a (by rw [hact]; rfl)]

theorem RemoveScene_missing {m : SceneManager} {n : String}
    (ha : ∀ a ∈ m.mActiveScene, a.name ≠ n)
    (hl : lookupScene n m.mInactivesScenes = none) :
    RemoveScene m n = ⟨m, [], some SMError.unknownScene⟩ := by
  cases hact : m.mActiveScene with
  | none => simp [RemoveScene, hact, hl]
  | some a => simp [RemoveScene, hact, hl, ha a (by rw [hact]; rfl)]

theorem FinishChange_absent {m : SceneManager} {n : String}
    {pre : List Callback} (hl : lookupScene n m.mInactivesScenes = none) :
    FinishChange m n pre
      = ⟨{ m with mNextScene := none }, pre, some SMError.unknownScene⟩ := by
  rw [FinishChange, hl]

theorem FinishChange_resume {m : SceneManager} {n : String} {sc : Scene}
    {pre : List Callback} (hl : lookupScene n m.mInactivesScenes = some sc)
    (hi : sc.initialized = true) :
    FinishChange m n pre
      = ⟨{ m with
            mInactivesScenes := eraseScene n m.mInactivesScenes,
            mActiveScene := some sc,
            mNextScene := none },
         pre ++ [Callback.cbResume sc.sid], none⟩ := by
  rw [FinishChange, hl]
  simp [hi]

theorem FinishChange_init {m : SceneManager} {n : String} {sc : Scene}
    {pre : List Callback} (hl : lookupScene n m.mInactivesScenes = some sc)
    (hi : sc.initialized = false) :
    FinishChange m n pre
      = ⟨{ m with
            mInactivesScenes := eraseScene n m.mInactivesScenes,
            mActiveScene := some { sc with initialized := true },
            mNextScene := none },
         pre ++ [Callback.cbInit sc.sid], none⟩ := by
  rw [FinishChange, hl]
  simp [hi]

theorem ChangeScene_idle {m : SceneManager} (hn : m.mNextScene = none) :
    ChangeScene m = ⟨m, [], none⟩ := by
  rw [ChangeScene, hn]

theorem ChangeScene_self {m : SceneManager} {n : String} {a : Scene}
    (hn : m.mNextScene = some n) (ha : m.mActiveScene = some a)
    (he : a.name = n) :
    ChangeScene m = ⟨{ m with mNextScene := none }, [], none⟩ := by
  rw [ChangeScene, hn, ha]
  simp [he]

theorem ChangeScene_park {m : SceneManager} {n : String} {a : Scene}
    (hn : m.mNextScene = some n) (ha : m.mActiveScene = some a)
    (he : a.name ≠ n) :
    ChangeScene m = FinishChange
      { m with mActiveScene := none,
               mInactivesScenes := m.mInactivesScenes ++ [(a.name, a)] }
      n [Callback.cbPause a.sid] := by
  rw [ChangeScene, hn, ha]
  simp [he]

theorem ChangeScene_noActive {m : SceneManager} {n : String}
    (hn : m.mNextScene = some n) (ha : m.mActiveScene = none) :
    ChangeScene m = FinishChange m n [] := by
  rw [ChangeScene, hn, ha]

theorem EventScene_eq {m : SceneManager} :
    EventScene m = ⟨m, (match m.mActiveScene with
      | some a => [Callback.cbEvent a.sid] | none => []), none⟩ := by
  rw [EventScene]
  cases m.mActiveScene <;> rfl

theorem UpdateScene_eq {m : SceneManager} :
    UpdateScene m = ⟨m, (match m.mActiveScene with
      | some a => [Callback.cbUpdate a.sid] | none => []), none⟩ := by
  rw [UpdateScene]
  cases m.mActiveScene <;> rfl

theorem DrawScene_eq {m : SceneManager} :
    DrawScene m = ⟨m, (match m.mActiveScene with
      | some a => [Callback.cbDraw a.sid] | none => []), none⟩ := by
  rw [DrawScene]
  cases m.mActiveScene <;> rfl

theorem ResumeScene_eq {m : SceneManager} :
    ResumeScene m = ⟨m, (match m.mActiveScene with
      | some a => [Callback.cbResume a.sid] | none => []), none⟩ := by
  rw [ResumeScene]
  cases m.mActiveScene <;> rfl

theorem PauseScene_eq {m : SceneManager} :
    PauseScene m = ⟨m, (match m.mActiveScene with
      | some a => [Callback.cbPause a.sid] | none => []), none⟩ := by
  rw [PauseScene]
  cases m.mActiveScene <;> rfl

/-! ## Preservation of manager well-formedness -/

theorem managerInv_only_state {m m' : SceneManager} (h : ManagerInv m)
    (hact : m'.mActiveScene = m.mActiveScene)
    (hpool : m'.mInactivesScenes = m.mInactivesScenes) : ManagerInv m' := by
  refine ⟨hpool ▸ h.1, hpool ▸ h.2.1, ?_⟩
  intro a ha
  rw [hpool]
  exact h.2.2 a (by rw [← hact]; exact ha)

theorem managerInv_append_entry {m : SceneManager} {a : Scene}
    (h : ManagerInv m)
    (hl : lookupScene a.name m.mInactivesScenes = none) :
    ((m.mInactivesScenes ++ [(a.name, a)]).map Prod.fst).Nodup
    ∧ (∀ e ∈ m.mInactivesScenes ++ [(a.name, a)], e.2.name = e.1) := by
  refine ⟨nodup_keys_append_single h.1 hl, ?_⟩
  intro e he
  rcases List.mem_append.1 he with he' | he'
  · exact h.2.1 e he'
  · rw [List.mem_singleton.1 he']

theorem managerInv_FinishChange {m : SceneManager} (h : ManagerInv m)
    (hact : m.mActiveScene = none) (n : String) (pre : List Callback) :
    ManagerInv (FinishChange m n pre).state := by
  cases hl : lookupScene n m.mInactivesScenes with
  | none =>
    rw [FinishChange_absent hl]
    refine ⟨h.1, h.2.1, ?_⟩
    intro a ha
    rw [show ({ m with mNextScene := none } : SceneManager).mActiveScene
      = m.mActiveScene from rfl, hact] at ha
    cases ha
  | some sc =>
    have hname : sc.name = n := h.2.1 (n, sc) (lookupScene_mem hl)
    have hbase : ((eraseScene n m.mInactivesScenes).map Prod.fst).Nodup
        ∧ ∀ e ∈ eraseScene n m.mInactivesScenes, e.2.name = e.1 :=
      ⟨nodup_keys_erase n h.1, fun e he => h.2.1 e (mem_eraseScene he).1⟩
    cases hi : sc.initialized with
    | true =>
      rw [FinishChange_resume hl hi]
      refine ⟨hbase.1, hbase.2, ?_⟩
      intro a ha
      cases ha
      rw [hname]
      exact lookupScene_erase_self n m.mInactivesScenes
    | false =>
      rw [FinishChange_init hl hi]
      refine ⟨hbase.1, hbase.2, ?_⟩
      intro a ha
      cases ha
      rw [show ({ sc with initialized := true } : Scene).name = sc.name
        from rfl, hname]
      exact lookupScene_erase_self n m.mInactivesScenes

theorem managerInv_runOp (m : SceneManager) (op : Op) (h : ManagerInv m) :
    ManagerInv (runOp m op).state := by
  cases op with
  | addScene sc =>
    rw [runOp]
    cases hl : lookupScene sc.name m.mInactivesScenes with
    | some s' =>
      rw [AddScene_dup_pool hl]
      exact h
    | none =>
      by_cases ha : ∀ a ∈ m.mActiveScene, a.name ≠ sc.name
      · rw [AddScene_ok hl ha]
        refine ⟨(managerInv_append_entry h ?_).1,
          (managerInv_append_entry h ?_).2, ?_⟩
        · exact hl
        · exact hl
        · intro a' ha'
          have ha'' : m.mActiveScene = some a' := ha'
          rw [lookupScene_append_none (h.2.2 a' ha'), lookupScene,
            if_neg (fun hc => ha a' ha' hc.symm), lookupScene]
      · push_neg at ha
        obtain ⟨a, ha1, ha2⟩ := ha
        rw [AddScene_dup_active hl ha1 ha2]
        exact h
  | setActiveScene n =>
    rw [runOp]
    by_cases hc : (lookupScene n m.mInactivesScenes).isSome = true
        ∨ m.mActiveScene.map Scene.name = some n
    · rw [SetActiveScene_valid hc]
      exact managerInv_only_state h rfl rfl
    · rw [SetActiveScene_invalid hc]
      exact managerInv_only_state h rfl rfl
  | removeScene n =>
    rw [runOp]
    by_cases ha : ∀ a ∈ m.mActiveScene, a.name ≠ n
    · cases hl : lookupScene n m.mInactivesScenes with
      | some sc =>
        rw [RemoveScene_found ha hl]
        refine ⟨nodup_keys_erase n h.1, ?_, ?_⟩
        · intro e he
          exact h.2.1 e (mem_eraseScene he).1
        · intro a' ha'
          exact lookupScene_erase_of_none (h.2.2 a' ha')
      | none =>
        rw [RemoveScene_missing ha hl]
        exact h
    · push_neg at ha
      obtain ⟨a, ha1, ha2⟩ := ha
      rw [RemoveScene_isActive ha1 ha2]
      exact h
  | removeAllInactiveScene =>
    rw [runOp, RemoveAllInactiveScene]
    exact ⟨List.nodup_nil, fun e he => (List.not_mem_nil e he).elim,
      fun a _ => rfl⟩
  | removeAllScene =>
    rw [runOp, RemoveAllScene]
    exact ⟨List.nodup_nil, fun e he => (List.not_mem_nil e he).elim,
      fun a ha => by cases ha⟩
  | changeScene =>
    rw [runOp]
    cases hnx : m.mNextScene with
    | none =>
      rw [ChangeScene_idle hnx]
      exact h
    | some n =>
      cases hact : m.mActiveScene with
      | some a =>
        by_cases he : a.name = n
        · rw [ChangeScene_self hnx hact he]
          exact managerInv_only_state h rfl rfl
        · rw [ChangeScene_park hnx hact he]
          have hanone : lookupScene a.name m.mInactivesScenes = none :=
            h.2.2 a (by rw [hact]; rfl)
          exact managerInv_FinishChange
            ⟨(managerInv_append_entry h hanone).1,
             (managerInv_append_entry h hanone).2,
             fun a' ha' => by cases ha'⟩ rfl n _
      | none =>
        rw [ChangeScene_noActive hnx hact]
        exact managerInv_FinishChange h hact n []
  | eventScene =>
    rw [runOp, EventScene_eq]
    exact h
  | updateScene =>
    rw [runOp, UpdateScene_eq]
    exact h
  | drawScene =>
    rw [runOp, DrawScene_eq]
    exact h
  | resumeScene =>
    rw [runOp, ResumeScene_eq]
    exact h
  | pauseScene =>
    rw [runOp, PauseScene_eq]
    exact h

theorem managerInv_runOps (ops : List Op) :
    ∀ m : SceneManager, ManagerInv m → ManagerInv (runOps m ops).1 := by
  induction ops with
  | nil =>
    intro m h
    exact h
  | cons op rest ih =>
    intro m h
    rw [runOps]
    exact ih _ (managerInv_runOp m op h)

/-! ## The transition performed by one request plus one boundary -/

theorem setChange_spec (m : SceneManager) (A : String) (sc : Scene)
    (hinv : ManagerInv m)
    (hA : lookupScene A m.mInactivesScenes = some sc) :
    ((ChangeScene (SetActiveScene m A).state).state.mActiveScene.map Scene.name
      = some A)
    ∧ (SetActiveScene m A).calls = []
    ∧ ((SetActiveScene m A).calls
        ++ (ChangeScene (SetActiveScene m A).state).calls).count
        (Callback.cbInit sc.sid) = (if sc.initialized then 0 else 1)
    ∧ ((SetActiveScene m A).calls
        ++ (ChangeScene (SetActiveScene m A).state).calls).count
        (Callback.cbResume sc.sid) = (if sc.initialized then 1 else 0)
    ∧ (∀ a ∈ m.mActiveScene,
        ((SetActiveScene m A).calls
          ++ (ChangeScene (SetActiveScene m A).state).calls).count
          (Callback.cbPause a.sid) = 1
        ∧ lookupScene a.name
            (ChangeScene (SetActiveScene m A).state).state.mInactivesScenes
            = some a) := by
  have hname : sc.name = A := hinv.2.1 (A, sc) (lookupScene_mem hA)
  have hcond : (lookupScene A m.mInactivesScenes).isSome = true
      ∨ m.mActiveScene.map Scene.name = some A := Or.inl (by rw [hA]; rfl)
  rw [SetActiveScene, if_pos hcond]
  cases hact : m.mActiveScene with
  | none =>
    rw [ChangeScene]
    simp only [hact]
    rw [FinishChange]
    simp only [hA]
    cases hsci : sc.initialized <;>
      simp [hsci, hname, List.count_cons, hact]
  | some a =>
    have hapool : lookupScene a.name m.mInactivesScenes = none :=
      hinv.2.2 a (by rw [hact]; rfl)
    have hne : ¬ a.name = A := by
      intro hc
      rw [hc, hA] at hapool
      exact Option.noConfusion hapool
    rw [ChangeScene]
    simp only [hact, if_neg hne]
    rw [FinishChange]
    simp only [lookupScene_append_some hA]
    have hpool2 : lookupScene a.name
        (eraseScene A (m.mInactivesScenes ++ [(a.name, a)])) = some a := by
      rw [eraseScene_append, eraseScene, if_neg hne, eraseScene]
      rw [lookupScene_append_none]
      · rw [lookupScene, if_pos rfl]
      · rw [lookupScene_erase_ne (fun hc => hne hc) _, hapool]
    cases hsci : sc.initialized <;>
      simp [hsci, hname, List.count_cons, hact, hpool2]

/-! ## Scene identities held by the manager -/

theorem sid_mem_of_pool {m : SceneManager} {e : String × Scene}
    (h : e ∈ m.mInactivesScenes) : e.2.sid ∈ sidsOf m := by
  rw [sidsOf]
  exact List.mem_append_right _
    (List.mem_map.2 ⟨e, h, rfl⟩)

theorem sid_mem_of_active {m : SceneManager} {a : Scene}
    (h : m.mActiveScene = some a) : a.sid ∈ sidsOf m := by
  rw [sidsOf, h]
  exact List.mem_append_left _ (List.mem_singleton.2 rfl)

theorem sidsOf_pool_nodup {m : SceneManager} (h : (sidsOf m).Nodup) :
    (m.mInactivesScenes.map (fun e => e.2.sid)).Nodup := by
  rw [sidsOf] at h
  exact h.of_append_right

theorem pool_sid_inj {m : SceneManager} (hnd : (sidsOf m).Nodup)
    {e1 e2 : String × Scene} (h1 : e1 ∈ m.mInactivesScenes)
    (h2 : e2 ∈ m.mInactivesScenes) (hs : e1.2.sid = e2.2.sid) : e1 = e2 :=
  nodup_map_inj (sidsOf_pool_nodup hnd) e1 h1 e2 h2 hs

theorem active_sid_notin_pool {m : SceneManager} {a : Scene}
    (hnd : (sidsOf m).Nodup) (ha : m.mActiveScene = some a) :
    a.sid ∉ m.mInactivesScenes.map (fun e => e.2.sid) := by
  simp only [sidsOf, ha] at hnd
  rw [List.nodup_append] at hnd
  intro hmem
  exact hnd.2.2 (List.mem_singleton.2 rfl) hmem

/-- The callbacks issued by steps 4-7 of the transition are the `Pause`
prefix handed in, plus one `Init` or `Resume` of a scene from the
pool. -/
theorem finishChange_calls (m : SceneManager) (n : String)
    (pre : List Callback) :
    ∀ cb ∈ (FinishChange m n pre).calls,
      cb ∈ pre ∨ callbackSid cb ∈ sidsOf m := by
  intro cb hcb
  cases hl : lookupScene n m.mInactivesScenes with
  | none =>
    rw [FinishChange_absent hl] at hcb
    exact Or.inl hcb
  | some sc =>
    cases hi : sc.initialized with
    | true =>
      rw [FinishChange_resume hl hi] at hcb
      rcases List.mem_append.1 hcb with h' | h'
      · exact Or.inl h'
      · rw [List.mem_singleton.1 h']
        exact Or.inr (sid_mem_of_pool (lookupScene_mem hl))
    | false =>
      rw [FinishChange_init hl hi] at hcb
      rcases List.mem_append.1 hcb with h' | h'
      · exact Or.inl h'
      · rw [List.mem_singleton.1 h']
        exact Or.inr (sid_mem_of_pool (lookupScene_mem hl))

/-- Every callback issued by one operation carries the identity of a
scene the manager held before the operation. -/
theorem runOp_calls_sids (m : SceneManager) (op : Op) :
    ∀ cb ∈ (runOp m op).calls, callbackSid cb ∈ sidsOf m := by
  cases op with
  | addScene sc =>
    rw [runOp]
    intro cb hcb
    exfalso
    cases hl : lookupScene sc.name m.mInactivesScenes with
    | some s' =>
      rw [AddScene_dup_pool hl] at hcb
      exact List.not_mem_nil cb hcb
    | none =>
      by_cases ha : ∀ a ∈ m.mActiveScene, a.name ≠ sc.name
      · rw [AddScene_ok hl ha] at hcb
        exact List.not_mem_nil cb hcb
      · push_neg at ha
        obtain ⟨a, ha1, ha2⟩ := ha
        rw [AddScene_dup_active hl ha1 ha2] at hcb
        exact List.not_mem_nil cb hcb
  | setActiveScene n =>
    rw [runOp]
    intro cb hcb
    exfalso
    by_cases hc : (lookupScene n m.mInactivesScenes).isSome = true
        ∨ m.mActiveScene.map Scene.name = some n
    · rw [SetActiveScene_valid hc] at hcb
      exact List.not_mem_nil cb hcb
    · rw [SetActiveScene_invalid hc] at hcb
      exact List.not_mem_nil cb hcb
  | removeScene n =>
    rw [runOp]
    intro cb hcb
    by_cases ha : ∀ a ∈ m.mActiveScene, a.name ≠ n
    · cases hl : lookupScene n m.mInactivesScenes with
      | some sc =>
        rw [RemoveScene_found ha hl] at hcb
        rw [List.mem_singleton.1 hcb]
        exact sid_mem_of_pool (lookupScene_mem hl)
      | none =>
        rw [RemoveScene_missing ha hl] at hcb
        exact (List.not_mem_nil cb hcb).elim
    · push_neg at ha
      obtain ⟨a, ha1, ha2⟩ := ha
      rw [RemoveScene_isActive ha1 ha2] at hcb
      exact (List.not_mem_nil cb hcb).elim
  | removeAllInactiveScene =>
    rw [runOp, RemoveAllInactiveScene]
    intro cb hcb
    obtain ⟨e, he, hcb'⟩ := List.mem_map.1 hcb
    rw [← hcb']
    exact sid_mem_of_pool he
  | removeAllScene =>
    rw [runOp, RemoveAllScene]
    intro cb hcb
    rcases List.mem_append.1 hcb with hcb' | hcb'
    · obtain ⟨e, he, hcb''⟩ := List.mem_map.1 hcb'
      rw [← hcb'']
      exact sid_mem_of_pool he
    · cases hact : m.mActiveScene with
      | some a =>
        rw [hact] at hcb'
        rw [List.mem_singleton.1 hcb']
        exact sid_mem_of_active hact
      | none =>
        rw [hact] at hcb'
        exact (List.not_mem_nil cb hcb').elim
  | changeScene =>
    rw [runOp]
    intro cb hcb
    cases hnx : m.mNextScene with
    | none =>
      rw [ChangeScene_idle hnx] at hcb
      exact (List.not_mem_nil cb hcb).elim
    | some n =>
      cases hact : m.mActiveScene with
      | some a =>
        by_cases he : a.name = n
        · rw [ChangeScene_self hnx hact he] at hcb
          exact (List.not_mem_nil cb hcb).elim
        · rw [ChangeScene_park hnx hact he] at hcb
          rcases finishChange_calls _ n _ cb hcb with h' | h'
          · rw [List.mem_singleton.1 h']
            exact sid_mem_of_active hact
          · simp only [sidsOf, List.map_append, List.map_cons, List.map_nil,
              List.nil_append, List.mem_append, List.mem_singleton] at h'
            rcases h' with h'' | h''
            · rw [sidsOf]
              exact List.mem_append_right _ h''
            · rw [h'']
              exact sid_mem_of_active hact
      | none =>
        rw [ChangeScene_noActive hnx hact] at hcb
        rcases finishChange_calls m n [] cb hcb with h' | h'
        · exact (List.not_mem_nil cb h').elim
        · exact h'
  | eventScene =>
    rw [runOp, EventScene_eq]
    intro cb hcb
    cases hact : m.mActiveScene with
    | some a =>
      rw [hact] at hcb
      rw [List.mem_singleton.1 hcb]
      exact sid_mem_of_active hact
    | none =>
      rw [hact] at hcb
      exact (List.not_mem_nil cb hcb).elim
  | updateScene =>
    rw [runOp, UpdateScene_eq]
    intro cb hcb
    cases hact : m.mActiveScene with
    | some a =>
      rw [hact] at hcb
      rw [List.mem_singleton.1 hcb]
      exact sid_mem_of_active hact
    | none =>
      rw [hact] at hcb
      exact (List.not_mem_nil cb hcb).elim
  | drawScene =>
    rw [runOp, DrawScene_eq]
    intro cb hcb
    cases hact : m.mActiveScene with
    | some a =>
      rw [hact] at hcb
      rw [List.mem_singleton.1 hcb]
      exact sid_mem_of_active hact
    | none =>
      rw [hact] at hcb
      exact (List.not_mem_nil cb hcb).elim
  | resumeScene =>
    rw [runOp, ResumeScene_eq]
    intro cb hcb
    cases hact : m.mActiveScene with
    | some a =>
      rw [hact] at hcb
      rw [List.mem_singleton.1 hcb]
      exact sid_mem_of_active hact
    | none =>
      rw [hact] at hcb
      exact (List.not_mem_nil cb hcb).elim
  | pauseScene =>
    rw [runOp, PauseScene_eq]
    intro cb hcb
    cases hact : m.mActiveScene with
    | some a =>
      rw [hact] at hcb
      rw [List.mem_singleton.1 hcb]
      exact sid_mem_of_active hact
    | none =>
      rw [hact] at hcb
      exact (List.not_mem_nil cb hcb).elim

/-- Steps 4-7 of the transition introduce no new scene identity. -/
theorem finishChange_state_sids (m : SceneManager) (n : String)
    (pre : List Callback) :
    ∀ j ∈ sidsOf (FinishChange m n pre).state, j ∈ sidsOf m := by
  intro j hj
  cases hl : lookupScene n m.mInactivesScenes with
  | none =>
    rw [FinishChange_absent hl] at hj
    exact hj
  | some sc =>
    have hmap : ∀ k, k ∈ (eraseScene n m.mInactivesScenes).map
        (fun e => e.2.sid) → k ∈ m.mInactivesScenes.map (fun e => e.2.sid) :=
      fun k hk => ((eraseScene_sublist n m.mInactivesScenes).map _).subset hk
    cases hi : sc.initialized with
    | true =>
      rw [FinishChange_resume hl hi] at hj
      simp only [sidsOf, List.mem_append, List.mem_singleton] at hj
      rcases hj with hj' | hj'
      · rw [hj']
        exact sid_mem_of_pool (lookupScene_mem hl)
      · rw [sidsOf]
        exact List.mem_append_right _ (hmap j hj')
    | false =>
      rw [FinishChange_init hl hi] at hj
      simp only [sidsOf, List.mem_append, List.mem_singleton] at hj
      rcases hj with hj' | hj'
      · rw [hj']
        exact sid_mem_of_pool (lookupScene_mem hl)
      · rw [sidsOf]
        exact List.mem_append_right _ (hmap j hj')

/-- Every scene identity held after one operation was held before it,
except the identity introduced by an accepted `AddScene`. -/
theorem runOp_state_sids (m : SceneManager) (op : Op) :
    ∀ j ∈ sidsOf (runOp m op).state,
      j ∈ sidsOf m ∨ ∃ sc, op = Op.addScene sc ∧ j = sc.sid := by
  cases op with
  | addScene sc =>
    rw [runOp]
    intro j hj
    cases hl : lookupScene sc.name m.mInactivesScenes with
    | some s' =>
      rw [AddScene_dup_pool hl] at hj
      exact Or.inl hj
    | none =>
      by_cases ha : ∀ a ∈ m.mActiveScene, a.name ≠ sc.name
      · rw [AddScene_ok hl ha] at hj
        simp only [sidsOf, List.map_append, List.map_cons, List.map_nil,
          List.mem_append, List.mem_singleton] at hj
        rcases hj with hj' | hj' | hj'
        · exact Or.inl (by rw [sidsOf]; exact List.mem_append_left _ hj')
        · exact Or.inl (by rw [sidsOf]; exact List.mem_append_right _ hj')
        · exact Or.inr ⟨sc, rfl, hj'⟩
      · push_neg at ha
        obtain ⟨a, ha1, ha2⟩ := ha
        rw [AddScene_dup_active hl ha1 ha2] at hj
        exact Or.inl hj
  | setActiveScene n =>
    rw [runOp]
    intro j hj
    by_cases hc : (lookupScene n m.mInactivesScenes).isSome = true
        ∨ m.mActiveScene.map Scene.name = some n
    · rw [SetActiveScene_valid hc] at hj
      exact Or.inl hj
    · rw [SetActiveScene_invalid hc] at hj
      exact Or.inl hj
  | removeScene n =>
    rw [runOp]
    intro j hj
    by_cases ha : ∀ a ∈ m.mActiveScene, a.name ≠ n
    · cases hl : lookupScene n m.mInactivesScenes with
      | some sc =>
        rw [RemoveScene_found ha hl] at hj
        simp only [sidsOf, List.mem_append] at hj
        rcases hj with hj' | hj'
        · exact Or.inl (by rw [sidsOf]; exact List.mem_append_left _ hj')
        · refine Or.inl (by
            rw [sidsOf]
            exact List.mem_append_right _
              (((eraseScene_sublist n m.mInactivesScenes).map _).subset hj'))
      | none =>
        rw [RemoveScene_missing ha hl] at hj
        exact Or.inl hj
    · push_neg at ha
      obtain ⟨a, ha1, ha2⟩ := ha
      rw [RemoveScene_isActive ha1 ha2] at hj
      exact Or.inl hj
  | removeAllInactiveScene =>
    rw [runOp, RemoveAllInactiveScene]
    intro j hj
    simp only [sidsOf, List.map_nil, List.append_nil] at hj
    exact Or.inl (by rw [sidsOf]; exact List.mem_append_left _ hj)
  | removeAllScene =>
    rw [runOp, RemoveAllScene]
    intro j hj
    simp only [sidsOf, List.map_nil, List.append_nil] at hj
    exact (List.not_mem_nil j hj).elim
  | changeScene =>
    rw [runOp]
    intro j hj
    cases hnx : m.mNextScene with
    | none =>
      rw [ChangeScene_idle hnx] at hj
      exact Or.inl hj
    | some n =>
      cases hact : m.mActiveScene with
      | some a =>
        by_cases he : a.name = n
        · rw [ChangeScene_self hnx hact he] at hj
          exact Or.inl hj
        · rw [ChangeScene_park hnx hact he] at hj
          have hj2 := finishChange_state_sids _ n _ j hj
          simp only [sidsOf, List.map_append, List.map_cons, List.map_nil,
            List.nil_append, List.mem_append, List.mem_singleton] at hj2
          rcases hj2 with hj' | hj'
          · exact Or.inl (by rw [sidsOf]; exact List.mem_append_right _ hj')
          · exact Or.inl (hj' ▸ sid_mem_of_active hact)
      | none =>
        rw [ChangeScene_noActive hnx hact] at hj
        exact Or.inl (finishChange_state_sids m n [] j hj)
  | eventScene =>
    rw [runOp, EventScene_eq]
    intro j hj
    exact Or.inl hj
  | updateScene =>
    rw [runOp, UpdateScene_eq]
    intro j hj
    exact Or.inl hj
  | drawScene =>
    rw [runOp, DrawScene_eq]
    intro j hj
    exact Or.inl hj
  | resumeScene =>
    rw [runOp, ResumeScene_eq]
    intro j hj
    exact Or.inl hj
  | pauseScene =>
    rw [runOp, PauseScene_eq]
    intro j hj
    exact Or.inl hj

/-- Freshness of an identity survives any operation that does not add a
scene with that identity. -/
theorem freshSid_step {i : Nat} {m : SceneManager} {tr : List Callback}
    {op : Op} (h : FreshSid i m tr)
    (hop : ∀ sc, op = Op.addScene sc → sc.sid ≠ i) :
    FreshSid i (runOp m op).state (tr ++ (runOp m op).calls) := by
  have hcalls : ∀ cb ∈ (runOp m op).calls, callbackSid cb ≠ i := by
    intro cb hcb hc
    exact h.1 (hc ▸ runOp_calls_sids m op cb hcb)
  refine ⟨?_, ?_, ?_, ?_⟩
  · intro hmem
    rcases runOp_state_sids m op i hmem with h' | ⟨sc, hsc, hsid⟩
    · exact h.1 h'
    · exact hop sc hsc hsid.symm
  · rw [List.count_append, h.2.1, List.count_eq_zero.2
      (fun hmem => hcalls (Callback.cbInit i) hmem rfl)]
  · rw [List.count_append, h.2.2.1, List.count_eq_zero.2
      (fun hmem => hcalls (Callback.cbResume i) hmem rfl)]
  · rw [List.count_append, h.2.2.2, List.count_eq_zero.2
      (fun hmem => hcalls (Callback.cbCleanup i) hmem rfl)]

/-! ## Preservation of the lifecycle invariant -/

theorem nodup_append_single {l : List Nat} {x : Nat} (h : l.Nodup)
    (hx : x ∉ l) : (l ++ [x]).Nodup := by
  rw [List.nodup_append]
  refine ⟨h, List.nodup_singleton x, ?_⟩
  intro y hy hy1
  rw [List.mem_singleton.1 hy1] at hy
  exact hx hy

theorem count_singleton_ne {a b : Callback} (h : b ≠ a) :
    List.count a [b] = 0 := by
  simp [List.count_singleton', h]

theorem count_cleanupMap_init (l : List (String × Scene)) (i : Nat) :
    (l.map (fun e => Callback.cbCleanup e.2.sid)).count (Callback.cbInit i)
      = 0 := by
  rw [List.count_eq_zero]
  intro hmem
  obtain ⟨e, _, he⟩ := List.mem_map.1 hmem
  exact Callback.noConfusion he

theorem count_cleanupMap_resume (l : List (String × Scene)) (i : Nat) :
    (l.map (fun e => Callback.cbCleanup e.2.sid)).count (Callback.cbResume i)
      = 0 := by
  rw [List.count_eq_zero]
  intro hmem
  obtain ⟨e, _, he⟩ := List.mem_map.1 hmem
  exact Callback.noConfusion he

theorem count_cleanupMap (l : List (String × Scene)) (i : Nat) :
    (l.map (fun e => Callback.cbCleanup e.2.sid)).count (Callback.cbCleanup i)
      = (l.map (fun e => e.2.sid)).count i := by
  rw [show l.map (fun e => Callback.cbCleanup e.2.sid)
      = (l.map (fun e => e.2.sid)).map Callback.cbCleanup
    from (List.map_map _ _ _).symm]
  exact List.count_map_of_injective _ Callback.cbCleanup
    (fun x y hxy => by injection hxy) i

theorem lifecycleInv_only_state {m m' : SceneManager} {tr : List Callback}
    (h : LifecycleInv m tr) (hact : m'.mActiveScene = m.mActiveScene)
    (hpool : m'.mInactivesScenes = m.mInactivesScenes) :
    LifecycleInv m' tr := by
  have hsids : sidsOf m' = sidsOf m := by
    rw [sidsOf, sidsOf, hact, hpool]
  refine ⟨managerInv_only_state h.mgr hact hpool, hsids ▸ h.sidsNodup,
    ?_, ?_, h.global⟩
  · intro sc hsc
    refine h.scenes sc ?_
    rcases hsc with ⟨k, hk⟩ | hsc
    · rw [hpool] at hk
      exact Or.inl ⟨k, hk⟩
    · rw [hact] at hsc
      exact Or.inr hsc
  · intro a ha
    exact h.activeInit a (by rw [← hact]; exact ha)

theorem lifecycleInv_append_neutral {m : SceneManager} {tr new : List Callback}
    (h : LifecycleInv m tr)
    (hnew : ∀ i, new.count (Callback.cbInit i) = 0
      ∧ new.count (Callback.cbResume i) = 0
      ∧ new.count (Callback.cbCleanup i) = 0) :
    LifecycleInv m (tr ++ new) := by
  refine ⟨h.mgr, h.sidsNodup, ?_, h.activeInit, ?_⟩
  · intro sc hsc
    obtain ⟨h1, h2, h3⟩ := h.scenes sc hsc
    refine ⟨?_, ?_, ?_⟩
    · rw [List.count_append, (hnew sc.sid).1, Nat.add_zero, h1]
    · rw [List.count_append, (hnew sc.sid).2.2, Nat.add_zero, h2]
    · intro hi
      rw [List.count_append, (hnew sc.sid).2.1, Nat.add_zero, h3 hi]
  · intro i
    obtain ⟨g1, g2, g3⟩ := h.global i
    refine ⟨?_, ?_, ?_⟩
    · rw [List.count_append, (hnew i).1, Nat.add_zero]
      exact g1
    · rw [List.count_append, (hnew i).2.2, Nat.add_zero]
      exact g2
    · exact resumeAfterInit_append_no_resume g3 (hnew i).2.1

theorem active_countInit {m : SceneManager} {tr : List Callback}
    (h : LifecycleInv m tr) {a : Scene} (ha : m.mActiveScene = some a) :
    tr.count (Callback.cbInit a.sid) = 1 := by
  have h1 := (h.scenes a (Or.inr ha)).1
  rw [h.activeInit a (by rw [ha]; rfl)] at h1
  simpa using h1

/-- Pausing the active scene into the pool (step 3 of the transition)
preserves the lifecycle invariant: the same scenes are held and the
trace is not extended here. -/
theorem lifecycleInv_park {m : SceneManager} {tr : List Callback} {a : Scene}
    (h : LifecycleInv m tr) (hact : m.mActiveScene = some a) :
    LifecycleInv { m with
      mActiveScene := none,
      mInactivesScenes := m.mInactivesScenes ++ [(a.name, a)] } tr := by
  have hanone : lookupScene a.name m.mInactivesScenes = none :=
    h.mgr.2.2 a (by rw [hact]; rfl)
  refine ⟨⟨(managerInv_append_entry h.mgr hanone).1,
    (managerInv_append_entry h.mgr hanone).2, (fun a' ha' => by cases ha')⟩,
    ?_, ?_, (fun a' ha' => by cases ha'), h.global⟩
  · show ((m.mInactivesScenes ++ [(a.name, a)]).map (fun e => e.2.sid)).Nodup
    rw [List.map_append]
    show ((m.mInactivesScenes.map (fun e => e.2.sid)) ++ [a.sid]).Nodup
    have hnd := h.sidsNodup
    simp only [sidsOf, hact, List.singleton_append] at hnd
    exact (List.perm_append_singleton a.sid _).symm.nodup hnd
  · intro s hs
    rcases hs with ⟨k, hk⟩ | hs
    · rcases List.mem_append.1 hk with hk' | hk'
      · exact h.scenes s (Or.inl ⟨k, hk'⟩)
      · have hs' : s = a := congrArg Prod.snd (List.mem_singleton.1 hk')
        rw [hs']
        exact h.scenes a (Or.inr hact)
    · exact Option.noConfusion hs

/-- Delegating `Resume` to the (initialized) active scene preserves the
lifecycle invariant. -/
theorem lifecycleInv_resumeCall {m : SceneManager} {tr : List Callback}
    {a : Scene} (h : LifecycleInv m tr) (hact : m.mActiveScene = some a) :
    LifecycleInv m (tr ++ [Callback.cbResume a.sid]) := by
  have hainit := active_countInit h hact
  refine ⟨h.mgr, h.sidsNodup, ?_, h.activeInit, ?_⟩
  · intro sc hsc
    obtain ⟨h1, h2, h3⟩ := h.scenes sc hsc
    refine ⟨?_, ?_, ?_⟩
    · simpa [List.count_append] using h1
    · simpa [List.count_append] using h2
    · intro hi
      have hne : a.sid ≠ sc.sid := by
        intro hc
        rw [hi] at h1
        rw [hc] at hainit
        simp at h1
        omega
      rw [List.count_append, h3 hi,
        count_singleton_ne (fun hc => hne (by injection hc))]
  · intro i
    obtain ⟨g1, g2, g3⟩ := h.global i
    refine ⟨?_, ?_, ?_⟩
    · simpa [List.count_append] using g1
    · simpa [List.count_append] using g2
    · by_cases hia : i = a.sid
      · refine resumeAfterInit_append_init_pos g3 ?_
        rw [hia, hainit]
        omega
      · refine resumeAfterInit_append_no_resume g3 ?_
        exact count_singleton_ne (fun hc => hia (by injection hc with h'; exact h'.symm))

theorem count_append3 {tr pre : List Callback} {cb tgt : Callback}
    (h1 : pre.count tgt = 0) (h2 : List.count tgt [cb] = 0) :
    (tr ++ (pre ++ [cb])).count tgt = tr.count tgt := by
  rw [List.count_append, List.count_append, h1, h2]
  omega

theorem count_append3_hit {tr pre : List Callback} {cb : Callback}
    (h1 : pre.count cb = 0) :
    (tr ++ (pre ++ [cb])).count cb = tr.count cb + 1 := by
  rw [List.count_append, List.count_append, h1]
  simp

theorem count_pre_single {pre : List Callback} {cb tgt : Callback}
    (h1 : pre.count tgt = 0) (h2 : List.count tgt [cb] = 0) :
    (pre ++ [cb]).count tgt = 0 := by
  rw [List.count_append, h1, h2]

/-- Steps 4-7 of the transition preserve the lifecycle invariant, the
issued `Init`/`Resume` callback included, provided the handed-in prefix
contains no `Init`, `Resume` or `Cleanup`. -/
theorem lifecycleInv_FinishChange {m : SceneManager} {tr : List Callback}
    {n : String} {pre : List Callback} (h : LifecycleInv m tr)
    (hact : m.mActiveScene = none)
    (hpre : ∀ i, pre.count (Callback.cbInit i) = 0
      ∧ pre.count (Callback.cbResume i) = 0
      ∧ pre.count (Callback.cbCleanup i) = 0) :
    LifecycleInv (FinishChange m n pre).state
      (tr ++ (FinishChange m n pre).calls) := by
  cases hl : lookupScene n m.mInactivesScenes with
  | none =>
    rw [FinishChange_absent hl]
    exact lifecycleInv_append_neutral (lifecycleInv_only_state h rfl rfl) hpre
  | some sc =>
    have hmem : (n, sc) ∈ m.mInactivesScenes := lookupScene_mem hl
    have hscn := h.scenes sc (Or.inl ⟨n, hmem⟩)
    have hpoolnd : (m.mInactivesScenes.map (fun e => e.2.sid)).Nodup :=
      sidsOf_pool_nodup h.sidsNodup
    have hperm : (m.mInactivesScenes.map (fun e => e.2.sid)).Perm
        (sc.sid ::
          (eraseScene n m.mInactivesScenes).map (fun e => e.2.sid)) := by
    -- placeholder
      have hp := (perm_cons_eraseScene h.mgr.1 hl).map (fun e => e.2.sid)
      simpa using hp
    have hnd' : (sc.sid ::
        (eraseScene n m.mInactivesScenes).map (fun e => e.2.sid)).Nodup :=
      hperm.nodup hpoolnd
    have hsurvne : ∀ e ∈ eraseScene n m.mInactivesScenes,
        e.2.sid ≠ sc.sid := by
      intro e he hc
      obtain ⟨hepool, hkne⟩ := mem_eraseScene he
      have : e = (n, sc) := pool_sid_inj h.sidsNodup hepool hmem hc
      exact hkne (congrArg Prod.fst this)
    cases hi : sc.initialized with
    | true =>
      rw [FinishChange_resume hl hi]
      have hinit1 : tr.count (Callback.cbInit sc.sid) = 1 := by
        have h1 := hscn.1
        rw [hi] at h1
        simpa using h1
      refine ⟨?_, ?_, ?_, ?_, ?_⟩
      · have hm := managerInv_FinishChange h.mgr hact n pre
        rw [FinishChange_resume hl hi] at hm
        exact hm
      · show (sc.sid ::
          (eraseScene n m.mInactivesScenes).map (fun e => e.2.sid)).Nodup
        exact hnd'
      · intro s hs
        rcases hs with ⟨k, hk⟩ | hs
        · obtain ⟨s1, s2, s3⟩ :=
            h.scenes s (Or.inl ⟨k, (mem_eraseScene hk).1⟩)
          have hsne : s.sid ≠ sc.sid := hsurvne (k, s) hk
          refine ⟨?_, ?_, ?_⟩
          · rw [count_append3 (hpre s.sid).1
              (count_singleton_ne (fun hc => Callback.noConfusion hc)), s1]
          · rw [count_append3 (hpre s.sid).2.2
              (count_singleton_ne (fun hc => Callback.noConfusion hc)), s2]
          · intro hi'
            rw [count_append3 (hpre s.sid).2.1
              (count_singleton_ne
                (fun hc => hsne (by injection hc with h'; exact h'.symm))),
              s3 hi']
        · have hss : sc = s := Option.some.inj hs
          refine ⟨?_, ?_, ?_⟩
          · rw [← hss, count_append3 (hpre sc.sid).1
              (count_singleton_ne (fun hc => Callback.noConfusion hc)),
              hinit1, hi]
            simp
          · rw [← hss, count_append3 (hpre sc.sid).2.2
              (count_singleton_ne (fun hc => Callback.noConfusion hc)),
              hscn.2.1]
          · intro hi'
            rw [← hss] at hi'
            rw [hi'] at hi
            exact Bool.noConfusion hi
      · intro a' ha'
        exact (Option.some.inj ha') ▸ hi
      · intro i
        obtain ⟨g1, g2, g3⟩ := h.global i
        refine ⟨?_, ?_, ?_⟩
        · rw [count_append3 (hpre i).1
            (count_singleton_ne (fun hc => Callback.noConfusion hc))]
          exact g1
        · rw [count_append3 (hpre i).2.2
            (count_singleton_ne (fun hc => Callback.noConfusion hc))]
          exact g2
        · by_cases hii : i = sc.sid
          · refine resumeAfterInit_append_init_pos g3 ?_
            rw [hii, hinit1]
            omega
          · refine resumeAfterInit_append_no_resume g3 ?_
            exact count_pre_single (hpre i).2.1
              (count_singleton_ne
                (fun hc => hii (by injection hc with h'; exact h'.symm)))
    | false =>
      rw [FinishChange_init hl hi]
      have hinit0 : tr.count (Callback.cbInit sc.sid) = 0 := by
        have h1 := hscn.1
        rw [hi] at h1
        simpa using h1
      refine ⟨?_, ?_, ?_, ?_, ?_⟩
      · have hm := managerInv_FinishChange h.mgr hact n pre
        rw [FinishChange_init hl hi] at hm
        exact hm
      · show (sc.sid ::
          (eraseScene n m.mInactivesScenes).map (fun e => e.2.sid)).Nodup
        exact hnd'
      · intro s hs
        rcases hs with ⟨k, hk⟩ | hs
        · obtain ⟨s1, s2, s3⟩ :=
            h.scenes s (Or.inl ⟨k, (mem_eraseScene hk).1⟩)
          have hsne : s.sid ≠ sc.sid := hsurvne (k, s) hk
          refine ⟨?_, ?_, ?_⟩
          · rw [count_append3 (hpre s.sid).1
              (count_singleton_ne
                (fun hc => hsne (by injection hc with h'; exact h'.symm))), s1]
          · rw [count_append3 (hpre s.sid).2.2
              (count_singleton_ne (fun hc => Callback.noConfusion hc)), s2]
          · intro hi'
            rw [count_append3 (hpre s.sid).2.1
              (count_singleton_ne (fun hc => Callback.noConfusion hc)),
              s3 hi']
        · have hss : ({ sc with initialized := true } : Scene) = s :=
            Option.some.inj hs
          refine ⟨?_, ?_, ?_⟩
          · rw [← hss]
            show (tr ++ (pre ++ [Callback.cbInit sc.sid])).count
                (Callback.cbInit sc.sid)
              = if true = true then 1 else 0
            rw [count_append3_hit (hpre sc.sid).1, hinit0]
            simp
          · rw [← hss]
            show (tr ++ (pre ++ [Callback.cbInit sc.sid])).count
                (Callback.cbCleanup sc.sid) = 0
            rw [count_append3 (hpre sc.sid).2.2
              (count_singleton_ne (fun hc => Callback.noConfusion hc)),
              hscn.2.1]
          · intro hi'
            rw [← hss] at hi'
            exact Bool.noConfusion hi'
      · intro a' ha'
        exact (Option.some.inj ha') ▸ rfl
      · intro i
        obtain ⟨g1, g2, g3⟩ := h.global i
        refine ⟨?_, ?_, ?_⟩
        · by_cases hii : i = sc.sid
          · rw [hii, count_append3_hit (hpre sc.sid).1, hinit0]
          · rw [count_append3 (hpre i).1
              (count_singleton_ne
                (fun hc => hii (by injection hc with h'; exact h'.symm)))]
            exact g1
        · rw [count_append3 (hpre i).2.2
            (count_singleton_ne (fun hc => Callback.noConfusion hc))]
          exact g2
        · refine resumeAfterInit_append_no_resume g3 ?_
          exact count_pre_single (hpre i).2.1
            (count_singleton_ne (fun hc => Callback.noConfusion hc))

/-- One operation preserves the lifecycle invariant, provided any scene
it adds is uninitialized and fresh. -/
theorem lifecycleInv_step {m : SceneManager} {tr : List Callback} (op : Op)
    (h : LifecycleInv m tr)
    (hadd : ∀ sc, op = Op.addScene sc →
      sc.initialized = false ∧ FreshSid sc.sid m tr) :
    LifecycleInv (runOp m op).state (tr ++ (runOp m op).calls) := by
  cases op with
  | addScene sc =>
    obtain ⟨hini, hfresh⟩ := hadd sc rfl
    rw [runOp]
    cases hl : lookupScene sc.name m.mInactivesScenes with
    | some s' =>
      rw [AddScene_dup_pool hl]
      show LifecycleInv m (tr ++ [])
      rw [List.append_nil]
      exact h
    | none =>
      by_cases ha : ∀ a ∈ m.mActiveScene, a.name ≠ sc.name
      · rw [AddScene_ok hl ha]
        show LifecycleInv { m with mInactivesScenes :=
          m.mInactivesScenes ++ [(sc.name, sc)] } (tr ++ [])
        rw [List.append_nil]
        refine ⟨?_, ?_, ?_, ?_, h.global⟩
        · have hm := managerInv_runOp m (Op.addScene sc) h.mgr
          rw [runOp, AddScene_ok hl ha] at hm
          exact hm
        · have hsids : sidsOf { m with mInactivesScenes :=
              m.mInactivesScenes ++ [(sc.name, sc)] }
              = sidsOf m ++ [sc.sid] := by
            simp [sidsOf, List.map_append]
          rw [hsids]
          exact nodup_append_single h.sidsNodup hfresh.1
        · intro s hs
          rcases hs with ⟨k, hk⟩ | hs
          · rcases List.mem_append.1 hk with hk' | hk'
            · exact h.scenes s (Or.inl ⟨k, hk'⟩)
            · have hs' : s = sc :=
                congrArg Prod.snd (List.mem_singleton.1 hk')
              rw [hs', hini]
              exact ⟨by simpa using hfresh.2.1, hfresh.2.2.2,
                fun _ => hfresh.2.2.1⟩
          · exact h.scenes s (Or.inr hs)
        · exact h.activeInit
      · push_neg at ha
        obtain ⟨a, ha1, ha2⟩ := ha
        rw [AddScene_dup_active hl ha1 ha2]
        show LifecycleInv m (tr ++ [])
        rw [List.append_nil]
        exact h
  | setActiveScene n =>
    rw [runOp]
    by_cases hc : (lookupScene n m.mInactivesScenes).isSome = true
        ∨ m.mActiveScene.map Scene.name = some n
    · rw [SetActiveScene_valid hc]
      show LifecycleInv { m with mNextScene := some n } (tr ++ [])
      rw [List.append_nil]
      exact lifecycleInv_only_state h rfl rfl
    · rw [SetActiveScene_invalid hc]
      show LifecycleInv { m with mNextScene := none } (tr ++ [])
      rw [List.append_nil]
      exact lifecycleInv_only_state h rfl rfl
  | removeScene n =>
    rw [runOp]
    by_cases ha : ∀ a ∈ m.mActiveScene, a.name ≠ n
    · cases hl : lookupScene n m.mInactivesScenes with
      | some sc =>
        rw [RemoveScene_found ha hl]
        show LifecycleInv { m with
            mInactivesScenes := eraseScene n m.mInactivesScenes }
          (tr ++ [Callback.cbCleanup sc.sid])
        have hmem : (n, sc) ∈ m.mInactivesScenes := lookupScene_mem hl
        refine ⟨?_, ?_, ?_, h.activeInit, ?_⟩
        · exact ⟨nodup_keys_erase n h.mgr.1,
            (fun e he => h.mgr.2.1 e (mem_eraseScene he).1),
            (fun a' ha' => lookupScene_erase_of_none (h.mgr.2.2 a' ha'))⟩
        · have hsub : (sidsOf { m with
              mInactivesScenes := eraseScene n m.mInactivesScenes }).Sublist
              (sidsOf m) :=
            List.Sublist.append_left
              ((eraseScene_sublist n m.mInactivesScenes).map _) _
          exact hsub.nodup h.sidsNodup
        · intro s hs
          rcases hs with ⟨k, hk⟩ | hs
          · obtain ⟨s1, s2, s3⟩ :=
              h.scenes s (Or.inl ⟨k, (mem_eraseScene hk).1⟩)
            have hsne : s.sid ≠ sc.sid := by
              intro hc
              have heq : (k, s) = (n, sc) :=
                pool_sid_inj h.sidsNodup (mem_eraseScene hk).1 hmem hc
              exact (mem_eraseScene hk).2 (congrArg Prod.fst heq)
            refine ⟨?_, ?_, ?_⟩
            · rw [List.count_append,
                count_singleton_ne (fun hc => Callback.noConfusion hc),
                Nat.add_zero, s1]
            · rw [List.count_append,
                count_singleton_ne
                  (fun hc => hsne (by injection hc with h'; exact h'.symm)),
                Nat.add_zero, s2]
            · intro hi
              rw [List.count_append,
                count_singleton_ne (fun hc => Callback.noConfusion hc),
                Nat.add_zero, s3 hi]
          · obtain ⟨s1, s2, s3⟩ := h.scenes s (Or.inr hs)
            have hsne : s.sid ≠ sc.sid := by
              intro hc
              refine active_sid_notin_pool h.sidsNodup hs ?_
              rw [hc]
              exact List.mem_map.2 ⟨(n, sc), hmem, rfl⟩
            refine ⟨?_, ?_, ?_⟩
            · rw [List.count_append,
                count_singleton_ne (fun hc => Callback.noConfusion hc),
                Nat.add_zero, s1]
            · rw [List.count_append,
                count_singleton_ne
                  (fun hc => hsne (by injection hc with h'; exact h'.symm)),
                Nat.add_zero, s2]
            · intro hi
              rw [List.count_append,
                count_singleton_ne (fun hc => Callback.noConfusion hc),
                Nat.add_zero, s3 hi]
        · intro i
          obtain ⟨g1, g2, g3⟩ := h.global i
          refine ⟨?_, ?_, ?_⟩
          · rw [List.count_append,
              count_singleton_ne (fun hc => Callback.noConfusion hc),
              Nat.add_zero]
            exact g1
          · by_cases hic : i = sc.sid
            · rw [List.count_append, hic,
                (h.scenes sc (Or.inl ⟨n, hmem⟩)).2.1]
              simp
            · rw [List.count_append,
                count_singleton_ne
                  (fun hc => hic (by injection hc with h'; exact h'.symm)),
                Nat.add_zero]
              exact g2
          · exact resumeAfterInit_append_no_resume g3
              (count_singleton_ne (fun hc => Callback.noConfusion hc))
      | none =>
        rw [RemoveScene_missing ha hl]
        show LifecycleInv m (tr ++ [])
        rw [List.append_nil]
        exact h
    · push_neg at ha
      obtain ⟨a, ha1, ha2⟩ := ha
      rw [RemoveScene_isActive ha1 ha2]
      show LifecycleInv m (tr ++ [])
      rw [List.append_nil]
      exact h
  | removeAllInactiveScene =>
    rw [runOp, RemoveAllInactiveScene]
    show LifecycleInv { m with mInactivesScenes := [] }
      (tr ++ m.mInactivesScenes.map (fun e => Callback.cbCleanup e.2.sid))
    refine ⟨?_, ?_, ?_, h.activeInit, ?_⟩
    · exact ⟨List.nodup_nil,
        (fun e he => (List.not_mem_nil e he).elim), (fun a _ => rfl)⟩
    · simp only [sidsOf, List.map_nil, List.append_nil]
      exact (List.nodup_append.1
        (by simpa [sidsOf] using h.sidsNodup)).1
    · intro s hs
      rcases hs with ⟨k, hk⟩ | hs
      · exact (List.not_mem_nil (k, s) hk).elim
      · obtain ⟨s1, s2, s3⟩ := h.scenes s (Or.inr hs)
        have hnotin : s.sid ∉ m.mInactivesScenes.map (fun e => e.2.sid) :=
          active_sid_notin_pool h.sidsNodup hs
        refine ⟨?_, ?_, ?_⟩
        · rw [List.count_append, count_cleanupMap_init, Nat.add_zero, s1]
        · rw [List.count_append, count_cleanupMap,
            List.count_eq_zero.2 hnotin, Nat.add_zero, s2]
        · intro hi
          rw [List.count_append, count_cleanupMap_resume, Nat.add_zero,
            s3 hi]
    · intro i
      obtain ⟨g1, g2, g3⟩ := h.global i
      refine ⟨?_, ?_, ?_⟩
      · rw [List.count_append, count_cleanupMap_init, Nat.add_zero]
        exact g1
      · rw [List.count_append, count_cleanupMap]
        by_cases hmem : i ∈ m.mInactivesScenes.map (fun e => e.2.sid)
        · obtain ⟨e, he, hesid⟩ := List.mem_map.1 hmem
          have h0 : tr.count (Callback.cbCleanup i) = 0 := by
            have h0' := (h.scenes e.2 (Or.inl ⟨e.1, he⟩)).2.1
            rw [hesid] at h0'
            exact h0'
          have hc1 : (m.mInactivesScenes.map (fun e => e.2.sid)).count i
              ≤ 1 := List.nodup_iff_count_le_one.1
            (sidsOf_pool_nodup h.sidsNodup) i
          omega
        · rw [List.count_eq_zero.2 hmem, Nat.add_zero]
          exact g2
      · exact resumeAfterInit_append_no_resume g3 (count_cleanupMap_resume _ i)
  | removeAllScene =>
    rw [runOp]
    cases hact : m.mActiveScene with
    | none =>
      simp only [RemoveAllScene, hact, List.append_nil]
      show LifecycleInv { m with mInactivesScenes := [], mActiveScene := none }
        (tr ++ m.mInactivesScenes.map (fun e => Callback.cbCleanup e.2.sid))
      refine ⟨?_, ?_, ?_, ?_, ?_⟩
      · exact ⟨List.nodup_nil,
          (fun e he => (List.not_mem_nil e he).elim),
          (fun a ha => by cases ha)⟩
      · exact List.nodup_nil
      · intro s hs
        rcases hs with ⟨k, hk⟩ | hs
        · exact (List.not_mem_nil (k, s) hk).elim
        · exact Option.noConfusion hs
      · intro a ha
        cases ha
      · intro i
        obtain ⟨g1, g2, g3⟩ := h.global i
        refine ⟨?_, ?_, ?_⟩
        · rw [List.count_append, count_cleanupMap_init, Nat.add_zero]
          exact g1
        · rw [List.count_append, count_cleanupMap]
          by_cases hmem : i ∈ m.mInactivesScenes.map (fun e => e.2.sid)
          · obtain ⟨e, he, hesid⟩ := List.mem_map.1 hmem
            have h0 : tr.count (Callback.cbCleanup i) = 0 := by
              have h0' := (h.scenes e.2 (Or.inl ⟨e.1, he⟩)).2.1
              rw [hesid] at h0'
              exact h0'
            have hc1 : (m.mInactivesScenes.map (fun e => e.2.sid)).count i
                ≤ 1 := List.nodup_iff_count_le_one.1
              (sidsOf_pool_nodup h.sidsNodup) i
            omega
          · rw [List.count_eq_zero.2 hmem, Nat.add_zero]
            exact g2
        · exact resumeAfterInit_append_no_resume g3
            (count_cleanupMap_resume _ i)
    | some a =>
      simp only [RemoveAllScene, hact]
      show LifecycleInv { m with mInactivesScenes := [], mActiveScene := none }
        (tr ++ (m.mInactivesScenes.map (fun e => Callback.cbCleanup e.2.sid)
          ++ [Callback.cbCleanup a.sid]))
      refine ⟨?_, ?_, ?_, ?_, ?_⟩
      · exact ⟨List.nodup_nil,
          (fun e he => (List.not_mem_nil e he).elim),
          (fun a' ha' => by cases ha')⟩
      · exact List.nodup_nil
      · intro s hs
        rcases hs with ⟨k, hk⟩ | hs
        · exact (List.not_mem_nil (k, s) hk).elim
        · exact Option.noConfusion hs
      · intro a' ha'
        cases ha'
      · intro i
        obtain ⟨g1, g2, g3⟩ := h.global i
        refine ⟨?_, ?_, ?_⟩
        · rw [count_append3 (count_cleanupMap_init _ i)
            (count_singleton_ne (fun hc => Callback.noConfusion hc))]
          exact g1
        · by_cases hia : i = a.sid
          · rw [hia, count_append3_hit (by
              rw [count_cleanupMap]
              exact List.count_eq_zero.2
                (active_sid_notin_pool h.sidsNodup hact))]
            have h0 : tr.count (Callback.cbCleanup a.sid) = 0 :=
              (h.scenes a (Or.inr hact)).2.1
            omega
          · rw [List.count_append, List.count_append, count_cleanupMap,
              count_singleton_ne
                (fun hc => hia (by injection hc with h'; exact h'.symm)),
              Nat.add_zero]
            by_cases hmem : i ∈ m.mInactivesScenes.map (fun e => e.2.sid)
            · obtain ⟨e, he, hesid⟩ := List.mem_map.1 hmem
              have h0 : tr.count (Callback.cbCleanup i) = 0 := by
                have h0' := (h.scenes e.2 (Or.inl ⟨e.1, he⟩)).2.1
                rw [hesid] at h0'
                exact h0'
              have hc1 : (m.mInactivesScenes.map (fun e => e.2.sid)).count i
                  ≤ 1 := List.nodup_iff_count_le_one.1
                (sidsOf_pool_nodup h.sidsNodup) i
              omega
            · rw [List.count_eq_zero.2 hmem, Nat.add_zero]
              exact g2
        · exact resumeAfterInit_append_no_resume g3
            (count_pre_single (count_cleanupMap_resume _ i)
              (count_singleton_ne (fun hc => Callback.noConfusion hc)))
  | changeScene =>
    rw [runOp]
    cases hnx : m.mNextScene with
    | none =>
      rw [ChangeScene_idle hnx]
      show LifecycleInv m (tr ++ [])
      rw [List.append_nil]
      exact h
    | some n =>
      cases hact : m.mActiveScene with
      | some a =>
        by_cases he : a.name = n
        · rw [ChangeScene_self hnx hact he]
          show LifecycleInv { m with mNextScene := none } (tr ++ [])
          rw [List.append_nil]
          exact lifecycleInv_only_state h rfl rfl
        · rw [ChangeScene_park hnx hact he]
          exact lifecycleInv_FinishChange (lifecycleInv_park h hact) rfl
            (fun i => ⟨count_singleton_ne (fun hc => Callback.noConfusion hc),
              count_singleton_ne (fun hc => Callback.noConfusion hc),
              count_singleton_ne (fun hc => Callback.noConfusion hc)⟩)
      | none =>
        rw [ChangeScene_noActive hnx hact]
        exact lifecycleInv_FinishChange h hact (fun i => ⟨rfl, rfl, rfl⟩)
  | eventScene =>
    rw [runOp, EventScene_eq]
    cases hact : m.mActiveScene with
    | some a =>
      show LifecycleInv m (tr ++ [Callback.cbEvent a.sid])
      exact lifecycleInv_append_neutral h
        (fun i => ⟨count_singleton_ne (fun hc => Callback.noConfusion hc),
          count_singleton_ne (fun hc => Callback.noConfusion hc),
          count_singleton_ne (fun hc => Callback.noConfusion hc)⟩)
    | none =>
      show LifecycleInv m (tr ++ [])
      rw [List.append_nil]
      exact h
  | updateScene =>
    rw [runOp, UpdateScene_eq]
    cases hact : m.mActiveScene with
    | some a =>
      show LifecycleInv m (tr ++ [Callback.cbUpdate a.sid])
      exact lifecycleInv_append_neutral h
        (fun i => ⟨count_singleton_ne (fun hc => Callback.noConfusion hc),
          count_singleton_ne (fun hc => Callback.noConfusion hc),
          count_singleton_ne (fun hc => Callback.noConfusion hc)⟩)
    | none =>
      show LifecycleInv m (tr ++ [])
      rw [List.append_nil]
      exact h
  | drawScene =>
    rw [runOp, DrawScene_eq]
    cases hact : m.mActiveScene with
    | some a =>
      show LifecycleInv m (tr ++ [Callback.cbDraw a.sid])
      exact lifecycleInv_append_neutral h
        (fun i => ⟨count_singleton_ne (fun hc => Callback.noConfusion hc),
          count_singleton_ne (fun hc => Callback.noConfusion hc),
          count_singleton_ne (fun hc => Callback.noConfusion hc)⟩)
    | none =>
      show LifecycleInv m (tr ++ [])
      rw [List.append_nil]
      exact h
  | resumeScene =>
    rw [runOp, ResumeScene_eq]
    cases hact : m.mActiveScene with
    | some a =>
      show LifecycleInv m (tr ++ [Callback.cbResume a.sid])
      exact lifecycleInv_resumeCall h hact
    | none =>
      show LifecycleInv m (tr ++ [])
      rw [List.append_nil]
      exact h
  | pauseScene =>
    rw [runOp, PauseScene_eq]
    cases hact : m.mActiveScene with
    | some a =>
      show LifecycleInv m (tr ++ [Callback.cbPause a.sid])
      exact lifecycleInv_append_neutral h
        (fun i => ⟨count_singleton_ne (fun hc => Callback.noConfusion hc),
          count_singleton_ne (fun hc => Callback.noConfusion hc),
          count_singleton_ne (fun hc => Callback.noConfusion hc)⟩)
    | none =>
      show LifecycleInv m (tr ++ [])
      rw [List.append_nil]
      exact h

/-- The lifecycle invariant holds at manager creation with the empty
trace. -/
theorem lifecycleInv_initial : LifecycleInv initialSM [] := by
  refine ⟨by decide, List.nodup_nil, ?_, ?_, ?_⟩
  · intro sc hsc
    rcases hsc with ⟨k, hk⟩ | hsc
    · exact (List.not_mem_nil (k, sc) hk).elim
    · exact Option.noConfusion hsc
  · intro a ha
    cases ha
  · intro i
    exact ⟨by simp, by simp, resumeAfterInit_nil i⟩

/-- Running a well-formed suffix of operations from an invariant-holding
configuration preserves the lifecycle invariant. -/
theorem lifecycleInv_runOps (ops : List Op) :
    ∀ (m : SceneManager) (tr : List Callback), LifecycleInv m tr →
    (∀ sc ∈ addedScenes ops, sc.initialized = false ∧ FreshSid sc.sid m tr) →
    (addedScenes ops).Pairwise (fun s t => s.sid ≠ t.sid) →
    LifecycleInv (runOps m ops).1 (tr ++ (runOps m ops).2) := by
  induction ops with
  | nil =>
    intro m tr h _ _
    show LifecycleInv m (tr ++ [])
    rw [List.append_nil]
    exact h
  | cons op rest ih =>
    intro m tr h hfresh hpw
    have hsub : ∀ s, s ∈ addedScenes rest → s ∈ addedScenes (op :: rest) := by
      intro s hsmem
      cases op <;> first
        | exact hsmem
        | exact List.mem_cons_of_mem _ hsmem
    have hstep : LifecycleInv (runOp m op).state (tr ++ (runOp m op).calls) := by
      refine lifecycleInv_step op h ?_
      intro sc hsc
      refine hfresh sc ?_
      rw [hsc]
      show sc ∈ sc :: addedScenes rest
      exact List.mem_cons_self _ _
    have hfresh' : ∀ sc' ∈ addedScenes rest,
        sc'.initialized = false
        ∧ FreshSid sc'.sid (runOp m op).state (tr ++ (runOp m op).calls) := by
      intro sc' hsc'
      obtain ⟨hin, hfr⟩ := hfresh sc' (hsub sc' hsc')
      refine ⟨hin, freshSid_step hfr ?_⟩
      intro s hop
      subst hop
      have hpw' : (s :: addedScenes rest).Pairwise
          (fun s t => s.sid ≠ t.sid) := hpw
      exact (List.pairwise_cons.1 hpw').1 sc' hsc'
    have hpwrest : (addedScenes rest).Pairwise (fun s t => s.sid ≠ t.sid) := by
      cases op <;> first
        | exact hpw
        | exact (List.pairwise_cons.1 hpw).2
    have hrec := ih (runOp m op).state (tr ++ (runOp m op).calls)
      hstep hfresh' hpwrest
    rw [List.append_assoc] at hrec
    show LifecycleInv (runOps (runOp m op).state rest).1
      (tr ++ ((runOp m op).calls ++ (runOps (runOp m op).state rest).2))
    exact hrec

/-! ## The claims -/

/-- C1: for every well-formed manager state and name `A` in the
inactive pool, `SetActiveScene A` followed by one `ChangeScene` makes
`A` the active scene; `A` receives exactly one `Init` if never
initialized and exactly one `Resume` otherwise; the previously active
scene, if any, receives exactly one `Pause` and afterwards sits in the
inactive pool. -/
theorem setActive_then_boundary_activates (m : SceneManager) (A : String)
    (sc : Scene) (hinv : ManagerInv m)
    (hA : lookupScene A m.mInactivesScenes = some sc) :
    ((ChangeScene (SetActiveScene m A).state).state.mActiveScene.map Scene.name
      = some A)
    ∧ (SetActiveScene m A).calls = []
    ∧ ((SetActiveScene m A).calls
        ++ (ChangeScene (SetActiveScene m A).state).calls).count
        (Callback.cbInit sc.sid) = (if sc.initialized then 0 else 1)
    ∧ ((SetActiveScene m A).calls
        ++ (ChangeScene (SetActiveScene m A).state).calls).count
        (Callback.cbResume sc.sid) = (if sc.initialized then 1 else 0)
    ∧ (∀ a ∈ m.mActiveScene,
        ((SetActiveScene m A).calls
          ++ (ChangeScene (SetActiveScene m A).state).calls).count
          (Callback.cbPause a.sid) = 1
        ∧ lookupScene a.name
            (ChangeScene (SetActiveScene m A).state).state.mInactivesScenes
            = some a) :=
  setChange_spec m A sc hinv hA

/-- Witness for C1: in `exampleSM` ("S" active and initialized, "A"
inactive and uninitialized), requesting "A" and applying the boundary
activates "A". -/
theorem setActive_then_boundary_activates_witness :
    ManagerInv exampleSM
    ∧ ((ChangeScene (SetActiveScene exampleSM "A").state).state.mActiveScene.map
        Scene.name = some "A") := by
  refine ⟨by decide, ?_⟩
  exact (setActive_then_boundary_activates exampleSM "A" sceneA (by decide)
    (by decide)).1

/-- C3: `SetActiveScene` by itself changes nothing but the
pending-transition slot — the active scene and the inactive pool (and
with them every scene's initialization flag) are untouched and no
lifecycle callback is issued synchronously. -/
theorem setActiveScene_changes_only_pending (m : SceneManager) (n : String) :
    (SetActiveScene m n).state.mActiveScene = m.mActiveScene
    ∧ (SetActiveScene m n).state.mInactivesScenes = m.mInactivesScenes
    ∧ (SetActiveScene m n).calls = [] := by
  rw [SetActiveScene]
  split <;> exact ⟨rfl, rfl, rfl⟩

/-- C4: two `SetActiveScene` requests before a boundary coalesce — the
state after the second request equals the state reached by issuing only
the second request, no callback is issued by either request, the next
boundary application behaves identically, and when `B` is in the pool
it is the scene that becomes active. -/
theorem setActiveScene_last_request_wins (m : SceneManager) (A B : String) :
    (SetActiveScene (SetActiveScene m A).state B).state
      = (SetActiveScene m B).state
    ∧ (SetActiveScene m A).calls = []
    ∧ (SetActiveScene (SetActiveScene m A).state B).calls = []
    ∧ ChangeScene (SetActiveScene (SetActiveScene m A).state B).state
      = ChangeScene (SetActiveScene m B).state
    ∧ (∀ sc : Scene, ManagerInv m → lookupScene B m.mInactivesScenes = some sc →
        ((ChangeScene (SetActiveScene (SetActiveScene m A).state B).state).state.mActiveScene.map
          Scene.name = some B)) := by
  have hstate : (SetActiveScene (SetActiveScene m A).state B).state
      = (SetActiveScene m B).state := by
    have hsplit : ∀ nx : Option String,
        (SetActiveScene { m with mNextScene := nx } B).state
          = (SetActiveScene m B).state := by
      intro nx
      simp only [SetActiveScene]
    by_cases h1 : (lookupScene A m.mInactivesScenes).isSome = true
        ∨ m.mActiveScene.map Scene.name = some A
    · have e1 : (SetActiveScene m A).state = { m with mNextScene := some A } := by
        rw [SetActiveScene, if_pos h1]
      rw [e1]
      exact hsplit (some A)
    · have e1 : (SetActiveScene m A).state = { m with mNextScene := none } := by
        rw [SetActiveScene, if_neg h1]
      rw [e1]
      exact hsplit none
  refine ⟨hstate, ?_, ?_, ?_, ?_⟩
  · rw [SetActiveScene]; split <;> rfl
  · rw [SetActiveScene]; split <;> rfl
  · rw [hstate]
  · intro sc hinv hB
    rw [hstate]
    exact (setChange_spec m B sc hinv hB).1

/-- Witness for C4: superseding "S" by "A" in `exampleSM` activates
"A" at the boundary. -/
theorem setActiveScene_last_request_wins_witness :
    ManagerInv exampleSM
    ∧ ((ChangeScene (SetActiveScene (SetActiveScene exampleSM "S").state
        "A").state).state.mActiveScene.map Scene.name = some "A") := by
  refine ⟨by decide, ?_⟩
  exact (setActiveScene_last_request_wins exampleSM "S" "A").2.2.2.2 sceneA
    (by decide) (by decide)

/-- C5: `SetActiveScene` with a name that is neither in the inactive
pool nor the active scene's name reports an error and, followed by one
boundary application, leaves the active scene and the pool unchanged
with no lifecycle callback issued. -/
theorem setActiveScene_unknown_aborted (m : SceneManager) (n : String)
    (h1 : lookupScene n m.mInactivesScenes = none)
    (h2 : m.mActiveScene.map Scene.name ≠ some n) :
    (SetActiveScene m n).err = some SMError.unknownScene
    ∧ (SetActiveScene m n).calls = []
    ∧ (ChangeScene (SetActiveScene m n).state).calls = []
    ∧ (ChangeScene (SetActiveScene m n).state).state.mActiveScene
      = m.mActiveScene
    ∧ (ChangeScene (SetActiveScene m n).state).state.mInactivesScenes
      = m.mInactivesScenes := by
  have hc : ¬((lookupScene n m.mInactivesScenes).isSome = true
      ∨ m.mActiveScene.map Scene.name = some n) := by
    rintro (hs | hs)
    · rw [h1] at hs
      exact Bool.noConfusion hs
    · exact h2 hs
  rw [SetActiveScene, if_neg hc]
  exact ⟨rfl, rfl, rfl, rfl, rfl⟩

/-- Witness for C5: requesting the unknown name "Z" in `exampleSM`. -/
theorem setActiveScene_unknown_aborted_witness :
    (SetActiveScene exampleSM "Z").err = some SMError.unknownScene
    ∧ (SetActiveScene exampleSM "Z").calls = []
    ∧ (ChangeScene (SetActiveScene exampleSM "Z").state).calls = []
    ∧ (ChangeScene (SetActiveScene exampleSM "Z").state).state.mActiveScene
      = exampleSM.mActiveScene
    ∧ (ChangeScene (SetActiveScene exampleSM "Z").state).state.mInactivesScenes
      = exampleSM.mInactivesScenes :=
  setActiveScene_unknown_aborted exampleSM "Z" (by decide) (by decide)

/-- C6: when the boundary runs with a pending name different from the
active scene's name, the active scene is paused and moved into the
inactive pool before the lookup, so an absent pending name aborts the
transition with no scene active, the previous scene inactive, and an
error reported. -/
theorem boundary_pause_precedes_lookup (m : SceneManager) (n : String)
    (a : Scene) (hinv : ManagerInv m) (hn : m.mNextScene = some n)
    (ha : m.mActiveScene = some a) (hne : a.name ≠ n)
    (habs : lookupScene n m.mInactivesScenes = none) :
    (ChangeScene m).calls = [Callback.cbPause a.sid]
    ∧ (ChangeScene m).state.mActiveScene = none
    ∧ lookupScene a.name (ChangeScene m).state.mInactivesScenes = some a
    ∧ (ChangeScene m).err = some SMError.unknownScene
    ∧ (ChangeScene m).state.mNextScene = none := by
  have hapool : lookupScene a.name m.mInactivesScenes = none :=
    hinv.2.2 a (by rw [ha]; rfl)
  rw [ChangeScene]
  simp only [hn, ha, if_neg hne]
  rw [FinishChange]
  have habs2 : lookupScene n (m.mInactivesScenes ++ [(a.name, a)]) = none := by
    rw [lookupScene_append_none habs, lookupScene, if_neg hne, lookupScene]
  simp only [habs2]
  refine ⟨by trivial, by trivial, ?_, by trivial, by trivial⟩
  rw [lookupScene_append_none hapool, lookupScene, if_pos rfl]

/-- Witness for C6: a manager whose pending name "G" has been removed
from the pool pauses "S", aborts, and leaves "S" inactive. -/
theorem boundary_pause_precedes_lookup_witness :
    (ChangeScene ⟨some sceneS, some "G", [("A", sceneA)]⟩).calls
      = [Callback.cbPause sceneS.sid]
    ∧ (ChangeScene ⟨some sceneS, some "G", [("A", sceneA)]⟩).state.mActiveScene
      = none
    ∧ lookupScene sceneS.name
        (ChangeScene ⟨some sceneS, some "G", [("A", sceneA)]⟩).state.mInactivesScenes
      = some sceneS
    ∧ (ChangeScene ⟨some sceneS, some "G", [("A", sceneA)]⟩).err
      = some SMError.unknownScene
    ∧ (ChangeScene ⟨some sceneS, some "G", [("A", sceneA)]⟩).state.mNextScene
      = none :=
  boundary_pause_precedes_lookup ⟨some sceneS, some "G", [("A", sceneA)]⟩
    "G" sceneS (by decide) rfl rfl (by decide) (by decide)

/-- C7: requesting the active scene's own name and applying the
boundary is a no-op apart from clearing the pending slot: no callback
is issued, no error is reported, and the state is unchanged except that
`mNextScene` is cleared. -/
theorem self_transition_noop (m : SceneManager) (a : Scene)
    (h : m.mActiveScene = some a) :
    (SetActiveScene m a.name).calls = []
    ∧ (ChangeScene (SetActiveScene m a.name).state).calls = []
    ∧ (SetActiveScene m a.name).err = none
    ∧ (ChangeScene (SetActiveScene m a.name).state).err = none
    ∧ (ChangeScene (SetActiveScene m a.name).state).state
      = { m with mNextScene := none } := by
  have hcond : (lookupScene a.name m.mInactivesScenes).isSome = true
      ∨ m.mActiveScene.map Scene.name = some a.name := Or.inr (by rw [h]; rfl)
  rw [SetActiveScene, if_pos hcond]
  rw [ChangeScene]
  simp [h]

/-- Witness for C7: requesting "S" while "S" is active in
`exampleSM`. -/
theorem self_transition_noop_witness :
    (SetActiveScene exampleSM sceneS.name).calls = []
    ∧ (ChangeScene (SetActiveScene exampleSM sceneS.name).state).calls = []
    ∧ (SetActiveScene exampleSM sceneS.name).err = none
    ∧ (ChangeScene (SetActiveScene exampleSM sceneS.name).state).err = none
    ∧ (ChangeScene (SetActiveScene exampleSM sceneS.name).state).state
      = { exampleSM with mNextScene := none } :=
  self_transition_noop exampleSM sceneS rfl

/-- C8: `RemoveScene` aimed at the active scene is rejected: no
`Cleanup` is issued, the state is fully unchanged, and an
invalid-operation error is reported. -/
theorem removeScene_active_rejected (m : SceneManager) (a : Scene)
    (h : m.mActiveScene = some a) :
    RemoveScene m a.name = ⟨m, [], some SMError.invalidOperation⟩ := by
  rw [RemoveScene]
  simp [h]

/-- Witness for C8: removing "S" while "S" is active. -/
theorem removeScene_active_rejected_witness :
    RemoveScene exampleSM sceneS.name
      = ⟨exampleSM, [], some SMError.invalidOperation⟩ :=
  removeScene_active_rejected exampleSM sceneS rfl

/-- C2: over every sequence of manager operations and boundary
applications by a well-formed client (each added scene a fresh,
uninitialized object), every scene identity receives at most one
`Init` and at most one `Cleanup` over its lifetime, `Resume` is never
called before `Init` (in no prefix of the trace does a `Resume`
precede the `Init`), a scene still held has received no `Cleanup`, and
it has received exactly one `Init` if and only if it is marked
initialized. -/
theorem scene_lifecycle_discipline (ops : List Op) (h : GoodProgram ops)
    (i : Nat) :
    (runOps initialSM ops).2.count (Callback.cbInit i) ≤ 1
    ∧ (runOps initialSM ops).2.count (Callback.cbCleanup i) ≤ 1
    ∧ ResumeAfterInit (runOps initialSM ops).2 i
    ∧ (∀ sc, InManager sc (runOps initialSM ops).1 →
        (runOps initialSM ops).2.count (Callback.cbInit sc.sid)
          = (if sc.initialized then 1 else 0)
        ∧ (runOps initialSM ops).2.count (Callback.cbCleanup sc.sid) = 0) := by
  have hrun := lifecycleInv_runOps ops initialSM [] lifecycleInv_initial
    (fun sc hsc => ⟨h.2 sc hsc,
      (fun hc => (List.not_mem_nil sc.sid hc).elim), rfl, rfl, rfl⟩) h.1
  rw [List.nil_append] at hrun
  obtain ⟨g1, g2, g3⟩ := hrun.global i
  exact ⟨g1, g2, g3,
    fun sc hsc => ⟨(hrun.scenes sc hsc).1, (hrun.scenes sc hsc).2.1⟩⟩

/-- Witness for C2: the add-request-boundary program on scene "A",
identity 1. -/
theorem scene_lifecycle_discipline_witness :
    GoodProgram exampleOps
    ∧ ((runOps initialSM exampleOps).2.count (Callback.cbInit 1) ≤ 1
      ∧ (runOps initialSM exampleOps).2.count (Callback.cbCleanup 1) ≤ 1
      ∧ ResumeAfterInit (runOps initialSM exampleOps).2 1
      ∧ (∀ sc, InManager sc (runOps initialSM exampleOps).1 →
          (runOps initialSM exampleOps).2.count (Callback.cbInit sc.sid)
            = (if sc.initialized then 1 else 0)
          ∧ (runOps initialSM exampleOps).2.count
              (Callback.cbCleanup sc.sid) = 0)) :=
  ⟨by decide, scene_lifecycle_discipline exampleOps (by decide) 1⟩

/-- C9: in every state reachable from the initial manager by any
sequence of operations and boundary applications, the active scene is
never simultaneously stored in the inactive pool: its name is absent
from the pool, and no pool entry holds the active scene. -/
theorem active_never_inactive (ops : List Op) (a : Scene)
    (h : (runOps initialSM ops).1.mActiveScene = some a) :
    lookupScene a.name (runOps initialSM ops).1.mInactivesScenes = none
    ∧ ∀ e ∈ (runOps initialSM ops).1.mInactivesScenes, e.2 ≠ a := by
  have hinv : ManagerInv (runOps initialSM ops).1 :=
    managerInv_runOps ops initialSM (by decide)
  have h1 : lookupScene a.name (runOps initialSM ops).1.mInactivesScenes
      = none := hinv.2.2 a (by rw [h]; rfl)
  refine ⟨h1, ?_⟩
  intro e he hc
  have hname : e.2.name = e.1 := hinv.2.1 e he
  have : a.name ∈ (runOps initialSM ops).1.mInactivesScenes.map Prod.fst := by
    rw [← hc, hname]
    exact List.mem_map_of_mem Prod.fst he
  exact lookupScene_eq_none.1 h1 this

/-- Witness for C9: after adding "A", requesting it and applying one
boundary, the active scene "A" is not in the pool. -/
theorem active_never_inactive_witness :
    lookupScene (⟨1, "A", true⟩ : Scene).name
      (runOps initialSM exampleOps).1.mInactivesScenes = none
    ∧ ∀ e ∈ (runOps initialSM exampleOps).1.mInactivesScenes,
        e.2 ≠ (⟨1, "A", true⟩ : Scene) :=
  active_never_inactive exampleOps ⟨1, "A", true⟩ (by decide)

/-- C10: `Text::findCharacterPos` is total on the index: with no font
it returns the zero vector, and an index beyond the string length is
clamped to the string length, so the result is the position of the end
of the string and the walk never reads past the string. -/
theorem findCharacterPos_total (t : Text) (i : Nat) :
    (t.m_font = none → findCharacterPos t i = (0, 0))
    ∧ (t.m_string.length ≤ i →
        findCharacterPos t i = findCharacterPos t t.m_string.length) := by
  constructor
  · intro h
    rw [findCharacterPos, h]
  · intro h
    rw [findCharacterPos, findCharacterPos]
    cases hf : t.m_font with
    | none => rfl
    | some font =>
      rw [Nat.min_eq_right h, Nat.min_self]

/-- Witness for C10: a fontless text yields the zero vector, and an
index past the end of `exampleText` yields the end-of-string
position. -/
theorem findCharacterPos_total_witness :
    findCharacterPos noFontText 3 = (0, 0)
    ∧ findCharacterPos exampleText 5 = findCharacterPos exampleText 2 := by
  constructor
  · exact (findCharacterPos_total noFontText 3).1 rfl
  · exact (findCharacterPos_total exampleText 5).2 (by decide)

end RAGE
